import Mathlib

/-!
Verification development for a clicker-game automation bot.

The embedding below translates, into Lean over exact rational arithmetic,
the numeric text normaliser (`screen_reader.parse_number`), the game-state
refresh (`game_state.GameState.update` and its helpers), the decision
engine (`strategy.Strategy`), and the upgrade-strip reader
(`screen_reader.read_upgrades`).  Python floats are modelled as `ℚ`,
Python `None`-able values as `Option`, and the dict-shaped records as
structures.  Dictionary iteration order (which matters for the suffix
table) is modelled by association lists in source order.
-/

set_option allowUnsafeReducibility true in
attribute [semireducible] Rat.add Rat.mul Rat.inv Rat.div Rat.sub Rat.neg Rat.normalize Rat.blt

namespace CookieBot

/-! ### Numeric text normaliser (screen_reader.py, `parse_number`) -/

/-- `str.lower` on a single ASCII character (uppercase letters shift by 32). -/
def pyLower (c : Char) : Char :=
  if 65 ≤ c.toNat ∧ c.toNat ≤ 90 then Char.ofNat (c.toNat + 32) else c

/-- The whitespace characters removed by Python `str.strip`. -/
def isPySpace (c : Char) : Bool :=
  c = ' ' || c = '\t' || c = '\n' || c = '\r' || c = '\x0b' || c = '\x0c'

/-- `str.strip`: drop whitespace from both ends. -/
def pyStrip (l : List Char) : List Char :=
  ((l.dropWhile isPySpace).reverse.dropWhile isPySpace).reverse

/-- Boolean list-prefix test (used to model regex literal alternatives and
`str.replace` scanning). -/
def pfx : List Char → List Char → Bool
  | [], _ => true
  | _ :: _, [] => false
  | p :: ps, c :: cs => p == c && pfx ps cs

/-- Character scanner for `re.sub`: when the skip counter is positive the
character belongs to an already-matched span and is discarded; at skip `0`
the alternatives are tried in order and a match discards its span. -/
def noiseGo : List Char → ℕ → List Char
  | [], _ => []
  | _ :: rest, n + 1 => noiseGo rest n
  | c :: rest, 0 =>
    if pfx "al secondo".data (c :: rest) then noiseGo rest 9
    else if pfx "biscotti".data (c :: rest) then noiseGo rest 7
    else if pfx "cookie".data (c :: rest) then noiseGo rest 5
    else if pfx ":".data (c :: rest) then noiseGo rest 0
    else if pfx "\n".data (c :: rest) then noiseGo rest 0
    else c :: noiseGo rest 0

/-- `re.sub(r"(al secondo|biscotti|cookie|:|\n)", "", text)`: scan left to
right, at each position try the alternatives in order, drop a match and
continue after it, otherwise keep the character. -/
def noiseSub (l : List Char) : List Char := noiseGo l 0

/-- `pat in text`: substring containment. -/
def substrB (pat : List Char) : List Char → Bool
  | [] => pat.isEmpty
  | c :: rest => pfx pat (c :: rest) || substrB pat rest

/-- Scanner for `str.replace(pat, "")` with a skip counter for the span of
the most recent match. -/
def eraseGo (pat : List Char) : List Char → ℕ → List Char
  | [], _ => []
  | _ :: rest, n + 1 => eraseGo pat rest n
  | c :: rest, 0 =>
    if pat ≠ [] ∧ pfx pat (c :: rest) = true then eraseGo pat rest (pat.length - 1)
    else c :: eraseGo pat rest 0

/-- `text.replace(pat, "")`: erase every (left-to-right, non-overlapping)
occurrence of `pat`. -/
def eraseA (pat : List Char) (l : List Char) : List Char := eraseGo pat l 0

/-- `NUMBER_SUFFIXES` of screen_reader.py, in dict insertion order.
Note: this table stops at `quadrillion`; it has no `quintillion` entry. -/
def NUMBER_SUFFIXES : List (String × ℚ) :=
  [("million", 1000000),
   ("billion", 1000000000),
   ("trillion", 1000000000000),
   ("quadrillion", 1000000000000000),
   ("milione", 1000000),
   ("miliardo", 1000000000)]

/-- The suffix loop: the first suffix contained in the text fixes the
multiplier and is erased (then the text is stripped); otherwise the
multiplier stays `1`. -/
def findSuffix : List (String × ℚ) → List Char → ℚ × List Char
  | [], t => (1, t)
  | (suf, m) :: rest, t =>
    if substrB suf.data t then (m, pyStrip (eraseA suf.data t))
    else findSuffix rest t

/-- `text.split(".")`. -/
def splitDot : List Char → List (List Char)
  | [] => [[]]
  | c :: rest =>
    if c = '.' then [] :: splitDot rest
    else
      match splitDot rest with
      | [] => [[c]]
      | p :: ps => (c :: p) :: ps

/-- The decimal/thousands separator normalisation of `parse_number`:
both separators present ⇒ drop dots, commas become dots; lone comma ⇒
becomes a dot; lone dot ⇒ dropped exactly when the split yields two parts
and the second has length 3. -/
def sepNormalize (t : List Char) : List Char :=
  if t.contains '.' && t.contains ',' then
    (t.filter (fun c => !(c = '.'))).map (fun c => if c = ',' then '.' else c)
  else if t.contains ',' then
    t.map (fun c => if c = ',' then '.' else c)
  else if t.contains '.' then
    match splitDot t with
    | [_, p2] => if p2.length = 3 then t.filter (fun c => !(c = '.')) else t
    | _ => t
  else t

/-- Value of a digit string (most significant first), as a natural. -/
def digitsVal (l : List Char) : ℕ :=
  l.foldl (fun a c => 10 * a + (c.toNat - 48)) 0

/-- Python `float()` on a string already restricted to digits and dots:
it succeeds iff every character is a digit or a dot, there is at most one
dot, and there is at least one digit. -/
def pyFloat? (l : List Char) : Option ℚ :=
  if l.all (fun c => c.isDigit || c = '.') && l.count '.' ≤ 1
      && l.any Char.isDigit then
    let intPart := l.takeWhile (fun c => !(c = '.'))
    let fracPart := (l.dropWhile (fun c => !(c = '.'))).drop 1
    some ((digitsVal intPart : ℚ) + (digitsVal fracPart : ℚ) / 10 ^ fracPart.length)
  else none

/-- Steps 1–4 of `parse_number` (everything inside the `try`), returning
`none` exactly when the final `float()` conversion would raise. -/
def parse_attempt (s : String) : Option ℚ :=
  let t0 := pyStrip (s.data.map pyLower)
  let t1 := pyStrip (noiseSub t0)
  let p := findSuffix NUMBER_SUFFIXES t1
  let t2 := sepNormalize p.2
  let t3 := t2.filter (fun c => c.isDigit || c = '.')
  (pyFloat? t3).map (fun q => q * p.1)

/-- `ScreenReader.parse_number`: empty text short-circuits to `0`; any
conversion failure is caught and becomes `0`. -/
def parse_number (s : String) : ℚ :=
  if s.data.isEmpty then 0 else (parse_attempt s).getD 0

/-- The characters that can survive to the numeric tail of a reading:
digits and the two separators. -/
def plainB (c : Char) : Prop := c.isDigit = true ∨ c = '.' ∨ c = ','

/-! ### Data model (game_state.py / strategy.py dict-shaped records) -/

/-- One shop row as produced by `ScreenReader.read_shop` and consumed by
`GameState` and `Strategy`.  `visible` models `b.get("visible", True)`:
`read_shop` never writes that key, so the default is `true`. -/
structure Building where
  name : String
  cost : ℚ
  count : ℕ
  affordable : Bool
  row_index : ℕ := 0
  click_pos : Option (ℤ × ℤ) := none
  visible : Bool := true
deriving Repr, DecidableEq

/-- One upgrade-strip slot as produced by `ScreenReader.read_upgrades`. -/
structure Upgrade where
  index : ℕ
  click_pos : Option (ℤ × ℤ)
deriving Repr, DecidableEq

/-- The decision dict returned by `Strategy.get_best_purchase`.  The two
optional fields model the extra keys (`cps_gain`, `affordable`) present
only on building candidates produced by `_best_building`. -/
structure Decision where
  name : String
  cost : ℚ
  click_pos : Option (ℤ × ℤ)
  payoff_time : WithTop ℚ
  is_upgrade : Bool
  cps_gain : Option ℚ := none
  affordable : Option Bool := none
deriving DecidableEq

/-- The mutable fields of `GameState` (metadata included). -/
structure GameState where
  cookies : ℚ := 0
  cps : ℚ := 0
  total_cookies : ℚ := 0
  buildings : List Building := []
  upgrades : List Upgrade := []
  cps_history : List (ℚ × ℚ) := []
  last_update : ℚ := 0
  update_count : ℕ := 0
  building_count : ℕ := 0
deriving DecidableEq

/-- The values returned by the `ScreenReader` collaborators during one
`GameState.update` cycle. -/
structure Readings where
  cookie_count : ℚ
  cps : ℚ
  shop : List Building
  upgrades : List Upgrade

/-- `deque(maxlen=10).append`: drop from the front once full. -/
def pushHistory (h : List (ℚ × ℚ)) (x : ℚ × ℚ) : List (ℚ × ℚ) :=
  let h2 := h ++ [x]
  if h2.length ≤ 10 then h2 else h2.drop (h2.length - 10)

/-- `GameState.update`, with the six sub-steps inlined in source order:
`_update_cookies` and `_update_cps` keep the previous value unless the
new reading is strictly positive, `_update_buildings` replaces the list
only when the read list is non-empty, `_update_upgrades` always replaces,
`_update_affordability` recomputes every flag from the current cookie
stock, `_update_building_count` sums the counts. -/
def GameState.update (s : GameState) (r : Readings) (now : ℚ) : GameState :=
  let s1 := if 0 < r.cookie_count then { s with cookies := r.cookie_count } else s
  let s2 :=
    if 0 < r.cps then
      { s1 with cps := r.cps, cps_history := pushHistory s1.cps_history (now, r.cps) }
    else s1
  let s3 := if r.shop.isEmpty then s2 else { s2 with buildings := r.shop }
  let s4 := { s3 with upgrades := r.upgrades }
  let withAff := s4.buildings.map (fun b =>
    { b with affordable := decide (0 < b.cost ∧ b.cost ≤ s4.cookies) })
  let s5 := { s4 with buildings := withAff }
  { s5 with
    building_count := (s5.buildings.map Building.count).sum,
    last_update := now,
    update_count := s.update_count + 1 }

/-- `GameState.get_affordable_buildings`. -/
def GameState.get_affordable_buildings (s : GameState) : List Building :=
  s.buildings.filter (·.affordable)

/-- `GameState.is_stalling`: needs two history samples at least
`threshold_minutes` apart, a positive oldest sample, and relative growth
below 1% between oldest and newest sample. -/
def GameState.is_stalling (s : GameState) (threshold_minutes : ℚ) : Bool :=
  match s.cps_history with
  | [] => false
  | [_] => false
  | (t0, c0) :: b :: rest =>
    let last := (b :: rest).getLast (List.cons_ne_nil b rest)
    if (last.1 - t0) / 60 < threshold_minutes then false
    else if c0 ≤ 0 then false
    else decide ((last.2 - c0) / c0 < 1 / 100)

/-! ### Decision engine (strategy.py) -/

/-- `BUILDING_BASE_CPS`, as an association list in source order. -/
def BUILDING_BASE_CPS : List (String × ℚ) :=
  [("Cursore", 1/10),
   ("Nonna", 1/2),
   ("Fattoria", 4),
   ("Miniera", 10),
   ("Fabbrica", 40),
   ("Banca", 100),
   ("Tempio", 400),
   ("Torre del mago", 6666),
   ("Nave spaziale", 100000),
   ("Alchimia", 400000),
   ("Portale", 1666666),
   ("Macchina del tempo", 98888888),
   ("Antimateria", 999999999),
   ("Prisma", 999999999999),
   ("Cervello", 99999999999999),
   ("Idiosfera", 99999999999999999),
   ("Frattale", 999999999999999999999)]

/-- `BUILDING_BASE_COST` (English keys first, then the Italian fallbacks,
as in the source). -/
def BUILDING_BASE_COST : List (String × ℚ) :=
  [("Cursor", 15),
   ("Grandma", 100),
   ("Farm", 1100),
   ("Mine", 12000),
   ("Factory", 130000),
   ("Bank", 1400000),
   ("Temple", 20000000),
   ("Wizard tower", 330000000),
   ("Shipment", 5100000000),
   ("Alchemy lab", 75000000000),
   ("Portal", 1000000000000),
   ("Time machine", 14000000000000),
   ("Antimatter condenser", 170000000000000),
   ("Prism", 2100000000000000),
   ("Chancemaker", 26000000000000000),
   ("Fractal engine", 310000000000000000),
   ("Javascript console", 71000000000000000000),
   ("Cursore", 15),
   ("Nonna", 100),
   ("Fattoria", 1100),
   ("Miniera", 12000),
   ("Fabbrica", 130000),
   ("Banca", 1400000),
   ("Tempio", 20000000),
   ("Torre del mago", 330000000),
   ("Nave spaziale", 5100000000),
   ("Alchimia", 75000000000),
   ("Portale", 1000000000000),
   ("Macchina del tempo", 14000000000000),
   ("Antimateria", 170000000000000),
   ("Prisma", 2100000000000000),
   ("Cervello", 26000000000000000),
   ("Idiosfera", 310000000000000000),
   ("Frattale", 71000000000000000000)]

/-- `dict.get(name, default)` on an association list. -/
def lookupD (l : List (String × ℚ)) (k : String) (d : ℚ) : ℚ :=
  match l.lookup k with
  | some v => v
  | none => d

/-- `BUILDING_BASE_CPS.get(name, 0.0)`. -/
def baseCps (n : String) : ℚ := lookupD BUILDING_BASE_CPS n 0

/-- `BUILDING_BASE_COST.get(name, 0)`. -/
def baseCost (n : String) : ℚ := lookupD BUILDING_BASE_COST n 0

/-- `Strategy._estimate_global_multiplier`: ratio of observed to
theoretical production, clamped to `[1, 10000]`. -/
def estimate_global_multiplier (s : GameState) : ℚ :=
  if s.buildings.isEmpty || s.cps ≤ 0 then 1
  else
    let theoretical :=
      s.buildings.foldl (fun acc b => acc + (b.count : ℚ) * baseCps b.name) 0
    if theoretical ≤ 0 then 1
    else max 1 (min (s.cps / theoretical) 10000)

/-- `Strategy._estimate_cps_gain` for a strategy whose per-building
multiplier table is the (total) map `mults`; a fresh `Strategy()` has
every multiplier equal to `1`. -/
def estimate_cps_gain (mults : String → ℚ) (name : String) (s : GameState) : ℚ :=
  let base := baseCps name
  if base ≤ 0 then 0
  else base * mults name * estimate_global_multiplier s

/-- The decision `_check_upgrades` builds from one populated slot
(`continue` on an absent click position). -/
def upgradeDecision (u : Upgrade) : Option Decision :=
  match u.click_pos with
  | none => none
  | some cp =>
    some { name := "Upgrade #" ++ toString u.index, cost := 0,
           click_pos := some cp, payoff_time := ((0 : ℚ) : WithTop ℚ),
           is_upgrade := true }

/-- `Strategy._check_upgrades`: the first upgrade slot with a click
position becomes a maximal-priority decision. -/
def check_upgrades (s : GameState) : Option Decision :=
  s.upgrades.findSome? upgradeDecision

/-- The ordering used by `candidates.sort(key=lambda c: c["payoff_time"])`. -/
def payoffLE (a b : Decision) : Prop := a.payoff_time ≤ b.payoff_time

instance : DecidableRel payoffLE := fun a b =>
  inferInstanceAs (Decidable (a.payoff_time ≤ b.payoff_time))

instance : IsTotal Decision payoffLE := ⟨fun a b => le_total a.payoff_time b.payoff_time⟩

instance : IsTrans Decision payoffLE := ⟨fun _ _ _ => le_trans⟩

/-- `est_cost / cps_gain if est_cost > 0 else 9999` — the payoff time
`_best_building` assigns to one pool entry. -/
def candPayoff (mults : String → ℚ) (s : GameState) (b : Building) : WithTop ℚ :=
  if 0 < baseCost b.name then
    ((baseCost b.name / estimate_cps_gain mults b.name s : ℚ) : WithTop ℚ)
  else ((9999 : ℚ) : WithTop ℚ)

/-- The candidate dict `_best_building` builds for one pool entry, when
the estimated gain is positive. -/
def mkCandidate (mults : String → ℚ) (s : GameState) (b : Building) : Option Decision :=
  if estimate_cps_gain mults b.name s ≤ 0 then none
  else
    some { name := b.name, cost := baseCost b.name, click_pos := b.click_pos,
           payoff_time := candPayoff mults s b,
           is_upgrade := false, cps_gain := some (estimate_cps_gain mults b.name s),
           affordable := some b.affordable }

/-- `Strategy._best_building`: pool the affordable buildings (else the
visible ones), keep those with positive estimated gain, sort by payoff
time (Python's sort is stable, so ties keep pool order — mirrored by the
stable `insertionSort`) and take the first; with no candidates, fall back
to the first affordable building. -/
def best_building (mults : String → ℚ) (s : GameState) : Option Decision :=
  let affordable := s.buildings.filter (·.affordable)
  let visible := s.buildings.filter (·.visible)
  if affordable.isEmpty && visible.isEmpty then none
  else
    let pool := if affordable.isEmpty then visible else affordable
    let candidates := pool.filterMap (mkCandidate mults s)
    if candidates.isEmpty then
      match affordable with
      | [] => none
      | b :: _ =>
        some { name := b.name, cost := 0, click_pos := b.click_pos,
               payoff_time := ((9999 : ℚ) : WithTop ℚ), is_upgrade := false }
    else (candidates.insertionSort payoffLE).head?

/-- `Strategy._cheapest_affordable`: `min(..., key=cost)` keeps the first
of several minima, mirrored by the strict-less fold. -/
def cheapest_affordable (s : GameState) : Option Decision :=
  match s.get_affordable_buildings with
  | [] => none
  | b :: rest =>
    let m := rest.foldl (fun best x => if x.cost < best.cost then x else best) b
    some { name := m.name, cost := m.cost, click_pos := m.click_pos,
           payoff_time := (⊤ : WithTop ℚ), is_upgrade := false }

/-- `Strategy.get_best_purchase`: empty shop ⇒ `None`; populated upgrade
slot ⇒ that upgrade; stalling with an affordable building ⇒ cheapest
affordable; otherwise the best building. -/
def get_best_purchase (mults : String → ℚ) (s : GameState) : Option Decision :=
  if s.buildings.isEmpty then none
  else
    match check_upgrades s with
    | some d => some d
    | none =>
      let best := best_building mults s
      if s.is_stalling 5 then
        match cheapest_affordable s with
        | some c => some c
        | none => best
      else best

/-! ### Upgrade strip reader (screen_reader.py, `read_upgrades`) -/

/-- The window rectangle provided by the window manager. -/
structure Rect where
  left : ℤ
  top : ℤ
  width : ℤ
  height : ℤ

/-- Python `int()` on a float: truncation toward zero. -/
def pyInt (q : ℚ) : ℤ := if q < 0 then -(⌊-q⌋) else ⌊q⌋

/-- `ScreenReader.read_upgrades`: unconditionally emits the 8 fixed slot
positions, scaled to the window size, each with a click position. -/
def read_upgrades (rect : Rect) : List Upgrade :=
  let upgrade_y : ℤ := pyInt (112 * (rect.height : ℚ) / 800)
  (List.range 8).map fun (i : ℕ) =>
    let rel_x : ℤ := pyInt ((1168 + (i : ℚ) * 50) * (rect.width : ℚ) / 1456)
    { index := i, click_pos := some (rect.left + rel_x, rect.top + upgrade_y) }

/-! ### Tooltip data cache -/

/-- One tooltip cache entry as described by the spec (§3): price, per-unit
production, aggregate production, and the write timestamp. -/
structure TooltipEntry where
  price : ℚ
  cps_single : ℚ
  cps_total : ℚ
  timestamp : ℚ
deriving DecidableEq

/-- Modelled from the spec: the expiry window of a tooltip cache entry
(`≈30s`); the caching layer itself (spec §3 "Tooltip Cache Entry" and
§4.4) belongs to a decision-engine revision absent from the sources at
hand, so its freshness policy is taken from the spec's words. -/
def TOOLTIP_EXPIRY : ℚ := 30

/-- Modelled from the spec: an entry written at `timestamp` is fresh — and
so eligible for reuse — until `timestamp + 30s`. -/
def tooltipFresh (now : ℚ) (e : TooltipEntry) : Bool :=
  decide (now ≤ e.timestamp + TOOLTIP_EXPIRY)

/-- Modelled from the spec: a read request for a building must first
trigger a refresh attempt exactly when its cache entry is missing or no
longer fresh. -/
def needsRefresh (cache : List (String × TooltipEntry)) (name : String) (now : ℚ) : Bool :=
  match cache.lookup name with
  | none => true
  | some e => ! tooltipFresh now e

/-! ### Concrete states used by the individual claim analyses -/

/-- A building entry forgetting its `affordable` flag (for stating that a
refresh leaves the building list itself untouched even though the flags
are recomputed). -/
def eraseAfford (b : Building) : Building := { b with affordable := false }

/-- A state with a populated upgrade slot but an empty shop list. -/
def noShopState : GameState :=
  { upgrades := [{ index := 0, click_pos := some (10, 10) }] }

/-- An unaffordable shop row for the building with the smallest estimated
payoff time (its current price has escalated far beyond its base price
after 30 purchases). -/
def cursoreRow : Building :=
  { name := "Cursore", cost := 20000, count := 30, affordable := false,
    row_index := 0, click_pos := some (1200, 200) }

/-- An affordable shop row for a much slower-amortising building. -/
def minieraRow : Building :=
  { name := "Miniera", cost := 12000, count := 0, affordable := true,
    row_index := 3, click_pos := some (1200, 380) }

/-- The affordable-preference scenario: the global payoff minimum
(`Cursore`, 150 s) is unaffordable while an affordable candidate
(`Miniera`, 1200 s ≥ 2 × 150 s) exists. -/
def twoRowState : GameState :=
  { cookies := 12000, buildings := [cursoreRow, minieraRow] }

/-- An affordable cheap row used by the anti-stall witness. -/
def nonnaRow : Building :=
  { name := "Nonna", cost := 100, count := 1, affordable := true,
    row_index := 1, click_pos := some (1200, 260) }

/-- The anti-stall scenario of the spec: production-rate samples
`(t=0, 100)` and `(t=301 s, 100.5)` — 0.5% growth over more than five
minutes — with an affordable building present. -/
def stallState : GameState :=
  { cookies := 500, cps := 201/2,
    buildings := [cursoreRow, nonnaRow],
    cps_history := [(0, 100), (301, 201/2)] }

/-- Readings whose shop list carries a zero-cost row (a failed price
read), used against the affordability claim. -/
def zeroCostReadings : Readings :=
  { cookie_count := 10, cps := 0,
    shop := [{ name := "Fattoria", cost := 0, count := 0, affordable := false }],
    upgrades := [] }

/-- Readings where every collaborator fails (zero / empty results). -/
def failedReadings : Readings :=
  { cookie_count := 0, cps := 0, shop := [], upgrades := [] }

/-- A small state with known-good values, for the last-known-good witness. -/
def goodState : GameState :=
  { cookies := 5000, cps := 7, buildings := [nonnaRow] }

/-- A successful refresh reading 120 cookies and one shop row. -/
def nonnaReadings : Readings :=
  { cookie_count := 120, cps := 7, shop := [nonnaRow], upgrades := [] }

/-- The reference window rectangle (1456×800 at the origin). -/
def baseRect : Rect := { left := 0, top := 0, width := 1456, height := 800 }

/-- A state with one building row and one populated upgrade slot. -/
def upgradeState : GameState :=
  { cookies := 500, buildings := [nonnaRow],
    upgrades := [{ index := 0, click_pos := some (10, 10) }] }

/-- A tooltip cache holding a single entry written at `t0 = 100`. -/
def sampleCache : List (String × TooltipEntry) :=
  [("Nonna", { price := 100, cps_single := 1, cps_total := 2, timestamp := 100 })]

/-! ## Theorems -/

theorem eraseAfford_idem (b : Building) (q : Bool) :
    eraseAfford { b with affordable := q } = eraseAfford b := rfl

/-- Claim C3: `GameState.update` preserves last-known-good values — a zero
cookie reading leaves a positive stock untouched, the production rate is
overwritten only by a strictly positive reading, and the building list is
replaced only by a non-empty shop reading (its affordability flags aside,
which are always recomputed). -/
theorem update_last_known_good (s : GameState) (r : Readings) (now : ℚ) :
    (0 < s.cookies → r.cookie_count = 0 → (s.update r now).cookies = s.cookies) ∧
    (r.cps ≤ 0 → (s.update r now).cps = s.cps) ∧
    (0 < r.cps → (s.update r now).cps = r.cps) ∧
    (r.shop = [] → (s.update r now).buildings.map eraseAfford = s.buildings.map eraseAfford) ∧
    (r.shop ≠ [] → (s.update r now).buildings.map eraseAfford = r.shop.map eraseAfford) := by
  refine ⟨?_, ?_, ?_, ?_, ?_⟩
  · intro _ h0
    simp [GameState.update, h0, apply_ite GameState.cookies]
  · intro h
    have hn : ¬ 0 < r.cps := not_lt.mpr h
    simp [GameState.update, hn, apply_ite GameState.cps, apply_ite GameState.cookies]
  · intro h
    simp [GameState.update, h, apply_ite GameState.cps, apply_ite GameState.cookies]
  · intro h
    simp only [GameState.update, h, List.isEmpty_nil, if_true, List.map_map,
      apply_ite GameState.buildings, ite_self]
    refine List.map_congr_left ?_
    intro a _
    rfl
  · intro h
    have hne : r.shop.isEmpty = false := by
      cases hs : r.shop with
      | nil => exact absurd hs h
      | cons a l => simp
    simp only [GameState.update, hne, Bool.false_eq_true, if_false, List.map_map,
      apply_ite GameState.buildings, ite_self]
    refine List.map_congr_left ?_
    intro a _
    rfl

/-- Claim C3 witness: a failed refresh (all collaborators returning zero or
empty) leaves a known-good snapshot unchanged. -/
theorem update_last_known_good_witness :
    (GameState.update goodState failedReadings 9).cookies = goodState.cookies ∧
    (GameState.update goodState failedReadings 9).cps = goodState.cps ∧
    (GameState.update goodState failedReadings 9).buildings.map eraseAfford
      = goodState.buildings.map eraseAfford := by
  have h := update_last_known_good goodState failedReadings 9
  exact ⟨h.1 (by decide) (by decide), h.2.1 (by decide), h.2.2.2.1 (by decide)⟩

/-- Claim C8 counterexample: after a refresh that reads 10 cookies and a
shop row with (unreadable) cost `0`, the row satisfies
`cookies >= cost` (`10 ≥ 0`) yet its `affordable` flag is `false` — the
code additionally requires `cost > 0`. -/
theorem affordability_zero_cost_cex :
    (GameState.update {} zeroCostReadings 0).cookies = 10 ∧
    ((GameState.update {} zeroCostReadings 0).buildings.map Building.cost) = [0] ∧
    ((GameState.update {} zeroCostReadings 0).buildings.map Building.affordable) = [false] ∧
    ¬ (∀ b ∈ (GameState.update {} zeroCostReadings 0).buildings,
        (b.affordable = true ↔ b.cost ≤ (GameState.update {} zeroCostReadings 0).cookies)) := by
  refine ⟨by decide, by decide, by decide, ?_⟩
  intro hall
  have hmem : ({ name := "Fattoria", cost := 0, count := 0, affordable := false } : Building)
      ∈ (GameState.update {} zeroCostReadings 0).buildings := by decide
  have := (hall _ hmem).mpr (by decide)
  simp at this

/-- Claim C8 (amended): after every refresh, each building's `affordable`
flag equals `cost > 0 ∧ cookies ≥ cost`, recomputed from the refreshed
cookie stock and the building's current cost. -/
theorem affordability_recompute (s : GameState) (r : Readings) (now : ℚ) :
    ∀ b ∈ (s.update r now).buildings,
      (b.affordable = true ↔ (0 < b.cost ∧ b.cost ≤ (s.update r now).cookies)) := by
  intro b hb
  simp only [GameState.update] at hb ⊢
  rcases List.mem_map.1 hb with ⟨b0, _, rfl⟩
  simp [decide_eq_true_iff]

/-- Claim C8 witness: the recomputed flag at a concrete refresh. -/
theorem affordability_recompute_witness :
    nonnaRow.affordable = true
      ↔ (0 < nonnaRow.cost
          ∧ nonnaRow.cost ≤ (GameState.update goodState nonnaReadings 3).cookies) :=
  affordability_recompute goodState nonnaReadings 3 nonnaRow (by decide)

/-- Claim C9 (spec-modelled): a tooltip cache entry written at `t0` is
eligible for reuse until `t0 + 30` seconds; a read after that point must
first trigger a refresh attempt. -/
theorem tooltip_cache_freshness (cache : List (String × TooltipEntry))
    (name : String) (e : TooltipEntry) (t : ℚ)
    (hl : cache.lookup name = some e) :
    (t ≤ e.timestamp + 30 → needsRefresh cache name t = false) ∧
    (e.timestamp + 30 < t → needsRefresh cache name t = true) := by
  unfold needsRefresh
  rw [hl]
  simp only [tooltipFresh, TOOLTIP_EXPIRY]
  constructor
  · intro h
    simp [h]
  · intro h
    simp [not_le.mpr h]

/-- Claim C9 witness: the entry of `sampleCache` (written at `t0 = 100`)
is reused at `t = 120` and triggers a refresh at `t = 131`. -/
theorem tooltip_cache_freshness_witness :
    needsRefresh sampleCache "Nonna" 120 = false ∧
    needsRefresh sampleCache "Nonna" 131 = true := by
  have h120 := tooltip_cache_freshness sampleCache "Nonna"
    { price := 100, cps_single := 1, cps_total := 2, timestamp := 100 } 120 (by decide)
  have h131 := tooltip_cache_freshness sampleCache "Nonna"
    { price := 100, cps_single := 1, cps_total := 2, timestamp := 100 } 131 (by decide)
  exact ⟨h120.1 (by norm_num), h131.2 (by norm_num)⟩

theorem check_upgrades_eq_none (s : GameState)
    (h : ∀ u ∈ s.upgrades, u.click_pos = none) : check_upgrades s = none := by
  unfold check_upgrades
  rw [List.findSome?_eq_none_iff]
  intro u hu
  simp [upgradeDecision, h u hu]

theorem findSome_upgrade_first (l : List Upgrade)
    (h : ∃ u ∈ l, u.click_pos.isSome = true) :
    ∃ d u, l.findSome? upgradeDecision = some d ∧ u ∈ l ∧ u.click_pos.isSome = true ∧
      d.is_upgrade = true ∧ d.payoff_time = ((0 : ℚ) : WithTop ℚ) ∧ d.cost = 0 ∧
      d.click_pos = u.click_pos ∧ d.name = "Upgrade #" ++ toString u.index := by
  induction l with
  | nil => simp at h
  | cons a l ih =>
    cases ha : a.click_pos with
    | none =>
      have h' : ∃ u ∈ l, u.click_pos.isSome = true := by
        obtain ⟨u, hu, hs⟩ := h
        rcases List.mem_cons.1 hu with rfl | hm
        · rw [ha] at hs
          simp at hs
        · exact ⟨u, hm, hs⟩
      obtain ⟨d, u, hfs, hm, rest⟩ := ih h'
      refine ⟨d, u, ?_, List.mem_cons_of_mem a hm, rest⟩
      rw [List.findSome?_cons]
      simp [upgradeDecision, ha, hfs]
    | some cp =>
      refine ⟨{ name := "Upgrade #" ++ toString a.index, cost := 0,
                click_pos := some cp, payoff_time := ((0 : ℚ) : WithTop ℚ),
                is_upgrade := true }, a, ?_, List.mem_cons_self a l,
              by simp [ha], rfl, rfl, rfl, by rw [ha], rfl⟩
      rw [List.findSome?_cons]
      simp [upgradeDecision, ha]

/-- Claim C1 counterexample: a snapshot with a populated upgrade slot but
an empty building list makes `get_best_purchase` return `None` (the empty
shop guard runs before the upgrade check), not the upgrade. -/
theorem upgrade_priority_cex :
    (∃ u ∈ noShopState.upgrades, u.click_pos.isSome = true) ∧
    get_best_purchase (fun _ => 1) noShopState = none := by
  constructor
  · decide
  · decide

/-- Claim C1 (amended): for any game state whose building list is
non-empty, a populated upgrade slot makes `get_best_purchase` return an
upgrade decision — the first populated slot, with cost 0, payoff time 0,
`is_upgrade` true — regardless of building economics. -/
theorem upgrade_priority (mults : String → ℚ) (s : GameState)
    (hb : s.buildings ≠ [])
    (hu : ∃ u ∈ s.upgrades, u.click_pos.isSome = true) :
    ∃ d u, get_best_purchase mults s = some d ∧ u ∈ s.upgrades ∧
      u.click_pos.isSome = true ∧ d.is_upgrade = true ∧
      d.payoff_time = ((0 : ℚ) : WithTop ℚ) ∧ d.cost = 0 ∧
      d.click_pos = u.click_pos ∧ d.name = "Upgrade #" ++ toString u.index := by
  obtain ⟨d, u, hfs, hm, rest⟩ := findSome_upgrade_first s.upgrades hu
  have hne : s.buildings.isEmpty = false := by
    cases hs : s.buildings with
    | nil => exact absurd hs hb
    | cons a l => simp
  refine ⟨d, u, ?_, hm, rest⟩
  unfold get_best_purchase
  rw [hne]
  simp only [Bool.false_eq_true, if_false]
  unfold check_upgrades
  rw [hfs]

/-- Claim C1 witness: with one building row and one populated slot the
engine returns that upgrade. -/
theorem upgrade_priority_witness :
    ∃ d u, get_best_purchase (fun _ => 1) upgradeState = some d ∧
      u ∈ upgradeState.upgrades ∧
      u.click_pos.isSome = true ∧ d.is_upgrade = true ∧
      d.payoff_time = ((0 : ℚ) : WithTop ℚ) ∧ d.cost = 0 ∧
      d.click_pos = u.click_pos ∧ d.name = "Upgrade #" ++ toString u.index :=
  upgrade_priority (fun _ => 1) upgradeState (by decide) (by decide)

theorem foldl_minCost (b : Building) (rest : List Building) :
    (rest.foldl (fun best x => if x.cost < best.cost then x else best) b) ∈ b :: rest ∧
    ∀ y ∈ b :: rest,
      (rest.foldl (fun best x => if x.cost < best.cost then x else best) b).cost ≤ y.cost := by
  induction rest generalizing b with
  | nil => simp
  | cons a l ih =>
    obtain ⟨hmem, hle⟩ := ih (if a.cost < b.cost then a else b)
    constructor
    · rw [List.foldl_cons]
      by_cases hab : a.cost < b.cost
      · simp only [if_pos hab] at hmem ⊢
        rcases List.mem_cons.1 hmem with he | hm
        · rw [he]
          exact List.mem_cons_of_mem b (List.mem_cons_self a l)
        · exact List.mem_cons_of_mem b (List.mem_cons_of_mem a hm)
      · simp only [if_neg hab] at hmem ⊢
        rcases List.mem_cons.1 hmem with he | hm
        · rw [he]
          exact List.mem_cons_self b (a :: l)
        · exact List.mem_cons_of_mem b (List.mem_cons_of_mem a hm)
    · intro y hy
      rw [List.foldl_cons]
      by_cases hab : a.cost < b.cost
      · simp only [if_pos hab] at hle ⊢
        rcases List.mem_cons.1 hy with rfl | hy'
        · exact le_trans (hle a (List.mem_cons_self a l)) (le_of_lt hab)
        · rcases List.mem_cons.1 hy' with rfl | hy''
          · exact hle y (List.mem_cons_self y l)
          · exact hle y (List.mem_cons_of_mem a hy'')
      · simp only [if_neg hab] at hle ⊢
        rcases List.mem_cons.1 hy with rfl | hy'
        · exact hle y (List.mem_cons_self y l)
        · rcases List.mem_cons.1 hy' with rfl | hy''
          · exact le_trans (hle b (List.mem_cons_self b l)) (not_lt.1 hab)
          · exact hle y (List.mem_cons_of_mem b hy'')

/-- Claim C7: with no populated upgrade slot, a true stalling predicate
(the oldest and newest trend samples at least five minutes apart with
relative growth below 1%) and at least one affordable building,
`get_best_purchase` returns the cheapest currently-affordable building
(with payoff time `+∞`), not the payoff-ranked best. -/
theorem anti_stall_override (mults : String → ℚ) (s : GameState)
    (hb : s.buildings ≠ [])
    (hupg : ∀ u ∈ s.upgrades, u.click_pos = none)
    (hstall : s.is_stalling 5 = true)
    (haff : s.get_affordable_buildings ≠ []) :
    ∃ m, m ∈ s.get_affordable_buildings ∧
      (∀ y ∈ s.get_affordable_buildings, m.cost ≤ y.cost) ∧
      get_best_purchase mults s
        = some { name := m.name, cost := m.cost, click_pos := m.click_pos,
                 payoff_time := (⊤ : WithTop ℚ), is_upgrade := false } := by
  cases hl : s.get_affordable_buildings with
  | nil => exact absurd hl haff
  | cons b rest =>
    obtain ⟨hmem, hle⟩ := foldl_minCost b rest
    refine ⟨rest.foldl (fun best x => if x.cost < best.cost then x else best) b,
            ?_, ?_, ?_⟩
    · exact hmem
    · exact hle
    · have hne : s.buildings.isEmpty = false := by
        cases hs : s.buildings with
        | nil => exact absurd hs hb
        | cons a l => simp
      unfold get_best_purchase
      rw [hne]
      simp only [Bool.false_eq_true, if_false]
      rw [check_upgrades_eq_none s hupg]
      simp only [hstall, if_true]
      unfold cheapest_affordable
      rw [hl]

/-- Claim C7 witness: the spec's trend samples `(0, 100)` and
`(301, 100.5)` make the predicate true, and the engine buys the cheapest
affordable row (`Nonna`). -/
theorem anti_stall_override_witness :
    ∃ m, m ∈ stallState.get_affordable_buildings ∧
      (∀ y ∈ stallState.get_affordable_buildings, m.cost ≤ y.cost) ∧
      get_best_purchase (fun _ => 1) stallState
        = some { name := m.name, cost := m.cost, click_pos := m.click_pos,
                 payoff_time := (⊤ : WithTop ℚ), is_upgrade := false } :=
  anti_stall_override (fun _ => 1) stallState (by decide) (by decide) (by decide) (by decide)

theorem insertionSort_head_min (l : List Decision) (hl : l ≠ []) :
    ∃ d, (l.insertionSort payoffLE).head? = some d ∧ d ∈ l ∧
      ∀ c ∈ l, d.payoff_time ≤ c.payoff_time := by
  have hperm := List.perm_insertionSort payoffLE l
  have hsort := List.sorted_insertionSort payoffLE l
  cases hs : l.insertionSort payoffLE with
  | nil =>
    rw [hs] at hperm
    exact absurd hperm.symm.eq_nil hl
  | cons d rest =>
    rw [hs] at hperm hsort
    refine ⟨d, rfl, hperm.subset (List.mem_cons_self d rest), ?_⟩
    intro c hc
    rcases List.mem_cons.1 (hperm.symm.subset hc) with rfl | hcr
    · exact le_refl _
    · exact List.rel_of_sorted_cons hsort c hcr

theorem mkCandidate_elim (mults : String → ℚ) (s : GameState) (b : Building)
    (d : Decision) (h : mkCandidate mults s b = some d) :
    0 < estimate_cps_gain mults b.name s ∧ d.name = b.name ∧
      d.is_upgrade = false ∧ d.affordable = some b.affordable ∧
      d.payoff_time = candPayoff mults s b := by
  unfold mkCandidate at h
  split at h
  · exact absurd h (by simp)
  · rename_i hg
    obtain rfl := Option.some_injective _ h
    exact ⟨not_le.1 hg, rfl, rfl, rfl, rfl⟩

theorem mkCandidate_intro (mults : String → ℚ) (s : GameState) (b : Building)
    (h : 0 < estimate_cps_gain mults b.name s) :
    mkCandidate mults s b
      = some { name := b.name, cost := baseCost b.name, click_pos := b.click_pos,
               payoff_time := candPayoff mults s b, is_upgrade := false,
               cps_gain := some (estimate_cps_gain mults b.name s),
               affordable := some b.affordable } := by
  unfold mkCandidate
  rw [if_neg (not_le.2 h)]

theorem best_building_spec (mults : String → ℚ) (s : GameState)
    (haff : s.buildings.filter (·.affordable) ≠ [])
    (hcand : (s.buildings.filter (·.affordable)).filterMap (mkCandidate mults s) ≠ []) :
    ∃ d, best_building mults s = some d ∧
      d ∈ (s.buildings.filter (·.affordable)).filterMap (mkCandidate mults s) ∧
      ∀ c ∈ (s.buildings.filter (·.affordable)).filterMap (mkCandidate mults s),
        d.payoff_time ≤ c.payoff_time := by
  have h1 : (s.buildings.filter (·.affordable)).isEmpty = false := by
    cases hs : s.buildings.filter (·.affordable) with
    | nil => exact absurd hs haff
    | cons a l => simp
  have h2 : ((s.buildings.filter (·.affordable)).filterMap (mkCandidate mults s)).isEmpty
      = false := by
    cases hs : (s.buildings.filter (·.affordable)).filterMap (mkCandidate mults s) with
    | nil => exact absurd hs hcand
    | cons a l => simp
  obtain ⟨d, hh, hm, hmin⟩ := insertionSort_head_min
    ((s.buildings.filter (·.affordable)).filterMap (mkCandidate mults s)) hcand
  refine ⟨d, ?_, hm, hmin⟩
  simp only [best_building, h1, h2, Bool.false_and, Bool.false_eq_true, if_false]
  exact hh

/-- Claim C2 counterexample: with the cheapest-payoff building (`Cursore`,
payoff 150 s) unaffordable and an affordable building (`Miniera`, payoff
1200 s ≥ 2 × 150 s) present, the engine returns the affordable `Miniera`,
not the unaffordable global minimum the claim demands — `_best_building`
has no 2× affordable-preference window at all. -/
theorem affordable_preference_cex :
    cursoreRow.affordable = false ∧ minieraRow.affordable = true ∧
    candPayoff (fun _ => 1) twoRowState cursoreRow = ((150 : ℚ) : WithTop ℚ) ∧
    candPayoff (fun _ => 1) twoRowState minieraRow = ((1200 : ℚ) : WithTop ℚ) ∧
    ((150 : ℚ) < 1200) ∧ (2 * 150 ≤ (1200 : ℚ)) ∧
    (get_best_purchase (fun _ => 1) twoRowState).map Decision.name = some "Miniera" := by
  refine ⟨by decide, by decide, by decide, by decide, by decide, by decide, by decide⟩

/-- Claim C2 (amended): whenever some affordable building with a positive
estimated gain exists, `_best_building` draws its candidates from the
affordable pool only and `get_best_purchase` returns an affordable
building of minimal estimated payoff time among the affordable
candidates — regardless of how that payoff compares (2× or otherwise) to
the payoff of any unaffordable building. -/
theorem affordable_pool_minimal (mults : String → ℚ) (s : GameState)
    (hupg : ∀ u ∈ s.upgrades, u.click_pos = none)
    (hstall : s.is_stalling 5 = false)
    (hex : ∃ b ∈ s.buildings, b.affordable = true ∧ 0 < estimate_cps_gain mults b.name s) :
    ∃ d, get_best_purchase mults s = some d ∧ d.is_upgrade = false ∧
      d.affordable = some true ∧
      (∃ b ∈ s.buildings, b.affordable = true ∧ d.name = b.name ∧
        d.payoff_time = candPayoff mults s b) ∧
      (∀ b ∈ s.buildings, b.affordable = true → 0 < estimate_cps_gain mults b.name s →
        d.payoff_time ≤ candPayoff mults s b) := by
  obtain ⟨b0, hb0m, hb0a, hb0g⟩ := hex
  have haff : s.buildings.filter (·.affordable) ≠ [] :=
    List.ne_nil_of_mem (List.mem_filter.2 ⟨hb0m, hb0a⟩)
  have hcand : (s.buildings.filter (·.affordable)).filterMap (mkCandidate mults s) ≠ [] :=
    List.ne_nil_of_mem (List.mem_filterMap.2
      ⟨b0, List.mem_filter.2 ⟨hb0m, hb0a⟩, mkCandidate_intro mults s b0 hb0g⟩)
  obtain ⟨d, hbb, hdm, hmin⟩ := best_building_spec mults s haff hcand
  obtain ⟨b1, hb1, hb1c⟩ := List.mem_filterMap.1 hdm
  obtain ⟨hb1m, hb1a⟩ := List.mem_filter.1 hb1
  obtain ⟨_, hname, hupd, haffd, hpay⟩ := mkCandidate_elim mults s b1 d hb1c
  have hne : s.buildings.isEmpty = false := by
    cases hs : s.buildings with
    | nil =>
      rw [hs] at hb0m
      exact absurd hb0m (List.not_mem_nil b0)
    | cons a l => simp
  refine ⟨d, ?_, hupd, ?_, ⟨b1, hb1m, ?_, hname, hpay⟩, ?_⟩
  · unfold get_best_purchase
    rw [hne]
    simp only [Bool.false_eq_true, if_false]
    rw [check_upgrades_eq_none s hupg]
    simp only [hstall, Bool.false_eq_true, if_false]
    exact hbb
  · rw [haffd, hb1a]
  · exact hb1a
  · intro b hbm hba hbg
    have hc := mkCandidate_intro mults s b hbg
    exact hmin _ (List.mem_filterMap.2 ⟨b, List.mem_filter.2 ⟨hbm, hba⟩, hc⟩)

/-- Claim C2 witness: on the two-row scenario the returned decision is the
affordable minimal-payoff candidate. -/
theorem affordable_pool_minimal_witness :
    ∃ d, get_best_purchase (fun _ => 1) twoRowState = some d ∧ d.is_upgrade = false ∧
      d.affordable = some true ∧
      (∃ b ∈ twoRowState.buildings, b.affordable = true ∧ d.name = b.name ∧
        d.payoff_time = candPayoff (fun _ => 1) twoRowState b) ∧
      (∀ b ∈ twoRowState.buildings, b.affordable = true →
        0 < estimate_cps_gain (fun _ => 1) b.name twoRowState →
        d.payoff_time ≤ candPayoff (fun _ => 1) twoRowState b) :=
  affordable_pool_minimal (fun _ => 1) twoRowState (by decide) (by decide)
    ⟨minieraRow, by decide, by decide, by decide⟩

/-- Claim C10: `read_upgrades` unconditionally returns exactly 8 entries
(indices 0–7), each with a click position, whatever the window contents;
hence any state whose upgrade list came from `read_upgrades` and whose
building list is non-empty always gets the slot-0 upgrade decision
(cost 0, payoff 0) from `get_best_purchase`, and the building-ranking and
anti-stall logic below the upgrade check is never reached. -/
theorem read_upgrades_dominates (rect : Rect) (mults : String → ℚ) (s : GameState)
    (hu : s.upgrades = read_upgrades rect) (hb : s.buildings ≠ []) :
    (read_upgrades rect).length = 8 ∧
    ((read_upgrades rect).map Upgrade.index = [0, 1, 2, 3, 4, 5, 6, 7]) ∧
    (∀ u ∈ read_upgrades rect, u.click_pos.isSome = true) ∧
    ∃ d u0, get_best_purchase mults s = some d ∧
      (read_upgrades rect).head? = some u0 ∧ u0.index = 0 ∧
      d.name = "Upgrade #0" ∧ d.cost = 0 ∧ d.payoff_time = ((0 : ℚ) : WithTop ℚ) ∧
      d.is_upgrade = true ∧ d.click_pos = u0.click_pos := by
  have hr : List.range 8 = [0, 1, 2, 3, 4, 5, 6, 7] := rfl
  have hne : s.buildings.isEmpty = false := by
    cases hs : s.buildings with
    | nil => exact absurd hs hb
    | cons a l => simp
  refine ⟨?_, ?_, ?_, ?_⟩
  · simp [read_upgrades]
  · simp [read_upgrades, hr]
  · intro u hm
    simp only [read_upgrades, List.mem_map] at hm
    obtain ⟨i, _, rfl⟩ := hm
    rfl
  · have hhead : ∃ u0, (read_upgrades rect).head? = some u0 ∧ u0.index = 0 ∧
        u0.click_pos = some (rect.left + pyInt ((1168 + ((0 : ℕ) : ℚ) * 50) * rect.width / 1456),
          rect.top + pyInt (112 * rect.height / 800)) := by
      simp only [read_upgrades, hr, List.map_cons]
      exact ⟨_, rfl, rfl, rfl⟩
    obtain ⟨u0, hh0, hi0, hcp⟩ := hhead
    refine ⟨{ name := "Upgrade #0", cost := 0, click_pos := u0.click_pos,
              payoff_time := ((0 : ℚ) : WithTop ℚ), is_upgrade := true },
            u0, ?_, hh0, hi0, rfl, rfl, rfl, rfl, rfl⟩
    unfold get_best_purchase
    rw [hne]
    simp only [Bool.false_eq_true, if_false]
    unfold check_upgrades
    rw [hu, hcp]
    simp only [read_upgrades, hr, List.map_cons, List.findSome?_cons, upgradeDecision]
    rfl

/-- Claim C10 witness: at the reference window, the engine on a state fed
by `read_upgrades` returns the slot-0 upgrade. -/
theorem read_upgrades_dominates_witness :
    (read_upgrades baseRect).length = 8 ∧
    ((read_upgrades baseRect).map Upgrade.index = [0, 1, 2, 3, 4, 5, 6, 7]) ∧
    (∀ u ∈ read_upgrades baseRect, u.click_pos.isSome = true) ∧
    ∃ d u0, get_best_purchase (fun _ => 1)
        { cookies := 500, buildings := [nonnaRow], upgrades := read_upgrades baseRect }
        = some d ∧
      (read_upgrades baseRect).head? = some u0 ∧ u0.index = 0 ∧
      d.name = "Upgrade #0" ∧ d.cost = 0 ∧ d.payoff_time = ((0 : ℚ) : WithTop ℚ) ∧
      d.is_upgrade = true ∧ d.click_pos = u0.click_pos :=
  read_upgrades_dominates baseRect (fun _ => 1)
    { cookies := 500, buildings := [nonnaRow], upgrades := read_upgrades baseRect }
    rfl (by decide)

/-! ### Lemmas about the text normaliser -/

theorem isDigit_toNat (c : Char) (h : c.isDigit = true) : 48 ≤ c.toNat ∧ c.toNat ≤ 57 := by
  simp only [Char.isDigit, ge_iff_le, Bool.and_eq_true, decide_eq_true_eq] at h
  exact ⟨UInt32.le_toNat_of_le (by norm_num) h.1, UInt32.toNat_le_of_le (by norm_num) h.2⟩

theorem pyLower_digit (c : Char) (h : c.isDigit = true) : pyLower c = c := by
  obtain ⟨_, h2⟩ := isDigit_toNat c h
  unfold pyLower
  rw [if_neg]
  omega

theorem pyLower_plain (c : Char) (h : plainB c) : pyLower c = c := by
  rcases h with h | rfl | rfl
  · exact pyLower_digit c h
  · rfl
  · rfl

theorem isPySpace_digit (c : Char) (h : c.isDigit = true) : isPySpace c = false := by
  obtain ⟨h1, _⟩ := isDigit_toNat c h
  simp only [isPySpace, Bool.or_eq_false_iff, decide_eq_false_iff_not]
  refine ⟨⟨⟨⟨⟨?_, ?_⟩, ?_⟩, ?_⟩, ?_⟩, ?_⟩ <;> (rintro rfl; exact absurd h1 (by decide))

theorem isPySpace_plain (c : Char) (h : plainB c) : isPySpace c = false := by
  rcases h with h | rfl | rfl
  · exact isPySpace_digit c h
  · rfl
  · rfl

theorem digit_ne (c d : Char) (h : c.isDigit = true) (hd : d.isDigit = false) : c ≠ d := by
  rintro rfl
  rw [h] at hd
  cases hd

theorem plain_ne (c d : Char) (h : plainB c) (hd : d.isDigit = false)
    (h2 : d ≠ '.') (h3 : d ≠ ',') : c ≠ d := by
  rcases h with h | rfl | rfl
  · exact digit_ne c d h hd
  · exact fun he => h2 he.symm
  · exact fun he => h3 he.symm

theorem pfx_cons_ne (p : Char) (ps : List Char) (c : Char) (cs : List Char)
    (h : p ≠ c) : pfx (p :: ps) (c :: cs) = false := by
  simp [pfx, beq_eq_false_iff_ne.mpr h]

theorem noiseGo_cons_plain (c : Char) (l : List Char) (h : plainB c) :
    noiseGo (c :: l) 0 = c :: noiseGo l 0 := by
  have ha : pfx "al secondo".data (c :: l) = false :=
    pfx_cons_ne 'a' "l secondo".data c l (plain_ne c 'a' h (by decide) (by decide) (by decide)).symm
  have hb : pfx "biscotti".data (c :: l) = false :=
    pfx_cons_ne 'b' "iscotti".data c l (plain_ne c 'b' h (by decide) (by decide) (by decide)).symm
  have hc : pfx "cookie".data (c :: l) = false :=
    pfx_cons_ne 'c' "ookie".data c l (plain_ne c 'c' h (by decide) (by decide) (by decide)).symm
  have hd : pfx ":".data (c :: l) = false :=
    pfx_cons_ne ':' [] c l (plain_ne c ':' h (by decide) (by decide) (by decide)).symm
  have he : pfx "\n".data (c :: l) = false :=
    pfx_cons_ne '\n' [] c l (plain_ne c '\n' h (by decide) (by decide) (by decide)).symm
  simp only [noiseGo, ha, hb, hc, hd, he, Bool.false_eq_true, if_false]

theorem noiseGo_append_plain (ds t : List Char) (h : ∀ c ∈ ds, plainB c) :
    noiseGo (ds ++ t) 0 = ds ++ noiseGo t 0 := by
  induction ds with
  | nil => rfl
  | cons c ds ih =>
    rw [List.cons_append, noiseGo_cons_plain c (ds ++ t) (h c (List.mem_cons_self c ds)),
      ih (fun x hx => h x (List.mem_cons_of_mem c hx)), List.cons_append]

theorem noiseSub_plain (l : List Char) (h : ∀ c ∈ l, plainB c) : noiseSub l = l := by
  have := noiseGo_append_plain l [] h
  simpa [noiseSub, noiseGo] using this

theorem substrB_append_of_head_ne (p : Char) (ps ds t : List Char)
    (h : ∀ c ∈ ds, p ≠ c) : substrB (p :: ps) (ds ++ t) = substrB (p :: ps) t := by
  induction ds with
  | nil => rfl
  | cons c ds ih =>
    rw [List.cons_append]
    show (pfx (p :: ps) (c :: (ds ++ t)) || substrB (p :: ps) (ds ++ t)) = _
    rw [pfx_cons_ne p ps c (ds ++ t) (h c (List.mem_cons_self c ds)),
      ih (fun x hx => h x (List.mem_cons_of_mem c hx)), Bool.false_or]

theorem substrB_nil_of_head_ne (p : Char) (ps ds : List Char)
    (h : ∀ c ∈ ds, p ≠ c) : substrB (p :: ps) ds = false := by
  have := substrB_append_of_head_ne p ps ds [] h
  simpa using this

theorem eraseGo_append_of_head_ne (p : Char) (ps ds t : List Char)
    (h : ∀ c ∈ ds, p ≠ c) : eraseGo (p :: ps) (ds ++ t) 0 = ds ++ eraseGo (p :: ps) t 0 := by
  induction ds with
  | nil => rfl
  | cons c ds ih =>
    rw [List.cons_append]
    show (if (p :: ps) ≠ [] ∧ pfx (p :: ps) (c :: (ds ++ t)) = true then _ else _) = _
    rw [if_neg]
    · rw [ih (fun x hx => h x (List.mem_cons_of_mem c hx)), List.cons_append]
    · rw [pfx_cons_ne p ps c (ds ++ t) (h c (List.mem_cons_self c ds))]
      simp

theorem findSuffix_of_all_absent (L : List (String × ℚ)) (t : List Char)
    (h : ∀ pr ∈ L, substrB pr.1.data t = false) : findSuffix L t = (1, t) := by
  induction L with
  | nil => rfl
  | cons pr rest ih =>
    obtain ⟨suf, m⟩ := pr
    show (if substrB suf.data t then _ else findSuffix rest t) = _
    rw [if_neg, ih (fun x hx => h x (List.mem_cons_of_mem _ hx))]
    rw [h ⟨suf, m⟩ (List.mem_cons_self _ rest)]
    simp

theorem dropWhile_eq_self_of_head (l : List Char)
    (h : ∀ c, l.head? = some c → isPySpace c = false) :
    l.dropWhile isPySpace = l := by
  cases l with
  | nil => rfl
  | cons c rest =>
    rw [List.dropWhile_cons_of_neg]
    rw [h c rfl]
    exact Bool.false_ne_true

theorem pyStrip_eq_self (l : List Char)
    (h1 : ∀ c, l.head? = some c → isPySpace c = false)
    (h2 : ∀ c, l.getLast? = some c → isPySpace c = false) :
    pyStrip l = l := by
  unfold pyStrip
  rw [dropWhile_eq_self_of_head l h1,
    dropWhile_eq_self_of_head l.reverse
      (fun c hc => h2 c (by rwa [List.getLast?_eq_head?_reverse])),
    List.reverse_reverse]

theorem contains_eq_false_of_not_mem (l : List Char) (a : Char) (h : a ∉ l) :
    l.contains a = false := by
  simp [List.contains, List.elem_eq_mem, h]

theorem contains_eq_true_of_mem (l : List Char) (a : Char) (h : a ∈ l) :
    l.contains a = true := by
  simp [List.contains, List.elem_eq_mem, h]

theorem digits_not_mem_dot (l : List Char) (h : ∀ c ∈ l, c.isDigit = true) : '.' ∉ l :=
  fun hm => absurd (h '.' hm) (by decide)

theorem digits_not_mem_comma (l : List Char) (h : ∀ c ∈ l, c.isDigit = true) : ',' ∉ l :=
  fun hm => absurd (h ',' hm) (by decide)

theorem splitDot_nodot (l : List Char) (h : ∀ c ∈ l, c ≠ '.') : splitDot l = [l] := by
  induction l with
  | nil => rfl
  | cons c rest ih =>
    show (if c = '.' then _ else _) = _
    rw [if_neg (h c (List.mem_cons_self c rest))]
    rw [ih (fun x hx => h x (List.mem_cons_of_mem c hx))]

theorem splitDot_append (a b : List Char) (ha : ∀ c ∈ a, c ≠ '.') :
    splitDot (a ++ '.' :: b) = a :: splitDot b := by
  induction a with
  | nil => simp [splitDot]
  | cons c rest ih =>
    rw [List.cons_append]
    show (if c = '.' then _ else _) = _
    rw [if_neg (ha c (List.mem_cons_self c rest))]
    rw [ih (fun x hx => ha x (List.mem_cons_of_mem c hx))]

theorem filter_not_dot_append (a b : List Char) (ha : ∀ c ∈ a, c ≠ '.')
    (hb : ∀ c ∈ b, c ≠ '.') :
    (a ++ '.' :: b).filter (fun c => !(c = '.')) = a ++ b := by
  rw [List.filter_append, List.filter_cons_of_neg (by decide),
    List.filter_eq_self.2 (fun c hc => by simp [ha c hc]),
    List.filter_eq_self.2 (fun c hc => by simp [hb c hc])]

theorem map_comma_sep (l : List Char) (h : ∀ c ∈ l, c ≠ ',') :
    l.map (fun c => if c = ',' then '.' else c) = l := by
  induction l with
  | nil => rfl
  | cons c rest ih =>
    rw [List.map_cons, if_neg (h c (List.mem_cons_self c rest)),
      ih (fun x hx => h x (List.mem_cons_of_mem c hx))]

theorem sepNormalize_digits (l : List Char) (h : ∀ c ∈ l, c.isDigit = true) :
    sepNormalize l = l := by
  unfold sepNormalize
  rw [contains_eq_false_of_not_mem l '.' (digits_not_mem_dot l h),
    contains_eq_false_of_not_mem l ',' (digits_not_mem_comma l h)]
  simp

theorem takeWhile_nodot_append (a : List Char) (t : List Char) (ha : ∀ c ∈ a, c ≠ '.') :
    (a ++ '.' :: t).takeWhile (fun c => !(c = '.')) = a := by
  induction a with
  | nil => simp
  | cons c rest ih =>
    rw [List.cons_append, List.takeWhile_cons_of_pos (by simp [ha c (List.mem_cons_self c rest)]),
      ih (fun x hx => ha x (List.mem_cons_of_mem c hx))]

theorem dropWhile_nodot_append (a : List Char) (t : List Char) (ha : ∀ c ∈ a, c ≠ '.') :
    (a ++ '.' :: t).dropWhile (fun c => !(c = '.')) = '.' :: t := by
  induction a with
  | nil => simp
  | cons c rest ih =>
    rw [List.cons_append, List.dropWhile_cons_of_pos (by simp [ha c (List.mem_cons_self c rest)]),
      ih (fun x hx => ha x (List.mem_cons_of_mem c hx))]

theorem takeWhile_nodot_self (l : List Char) (h : ∀ c ∈ l, c ≠ '.') :
    l.takeWhile (fun c => !(c = '.')) = l := by
  induction l with
  | nil => rfl
  | cons c rest ih =>
    rw [List.takeWhile_cons_of_pos (by simp [h c (List.mem_cons_self c rest)]),
      ih (fun x hx => h x (List.mem_cons_of_mem c hx))]

theorem dropWhile_nodot_self (l : List Char) (h : ∀ c ∈ l, c ≠ '.') :
    l.dropWhile (fun c => !(c = '.')) = [] := by
  induction l with
  | nil => rfl
  | cons c rest ih =>
    rw [List.dropWhile_cons_of_pos (by simp [h c (List.mem_cons_self c rest)]),
      ih (fun x hx => h x (List.mem_cons_of_mem c hx))]

theorem pyFloat_digits (l : List Char) (hne : l ≠ []) (h : ∀ c ∈ l, c.isDigit = true) :
    pyFloat? l = some ((digitsVal l : ℚ)) := by
  have hnd := digits_not_mem_dot l h
  have hcond : (l.all (fun c => c.isDigit || c = '.') && l.count '.' ≤ 1
      && l.any Char.isDigit) = true := by
    simp only [Bool.and_eq_true]
    refine ⟨⟨?_, ?_⟩, ?_⟩
    · exact List.all_eq_true.2 (fun c hc => by simp [h c hc])
    · have : l.count '.' = 0 := List.count_eq_zero.2 hnd
      simp [this]
    · cases l with
      | nil => exact absurd rfl hne
      | cons c rest => simp [List.any_cons, h c (List.mem_cons_self c rest)]
  unfold pyFloat?
  rw [if_pos hcond,
    takeWhile_nodot_self l (fun c hc => digit_ne c '.' (h c hc) (by decide)),
    dropWhile_nodot_self l (fun c hc => digit_ne c '.' (h c hc) (by decide))]
  norm_num [digitsVal]

theorem pyFloat_decimal (a b : List Char) (hane : a ≠ [])
    (ha : ∀ c ∈ a, c.isDigit = true) (hb : ∀ c ∈ b, c.isDigit = true) :
    pyFloat? (a ++ '.' :: b)
      = some ((digitsVal a : ℚ) + (digitsVal b : ℚ) / 10 ^ b.length) := by
  have hadot : ∀ c ∈ a, c ≠ '.' := fun c hc => digit_ne c '.' (ha c hc) (by decide)
  have hcond : ((a ++ '.' :: b).all (fun c => c.isDigit || c = '.')
      && (a ++ '.' :: b).count '.' ≤ 1
      && (a ++ '.' :: b).any Char.isDigit) = true := by
    simp only [Bool.and_eq_true]
    refine ⟨⟨?_, ?_⟩, ?_⟩
    · refine List.all_eq_true.2 (fun c hc => ?_)
      rcases List.mem_append.1 hc with hc | hc
      · simp [ha c hc]
      · rcases List.mem_cons.1 hc with rfl | hc
        · simp
        · simp [hb c hc]
    · have h1 : List.count '.' a = 0 := List.count_eq_zero.2 (digits_not_mem_dot a ha)
      have h2 : List.count '.' b = 0 := List.count_eq_zero.2 (digits_not_mem_dot b hb)
      simp [List.count_append, h1, h2]
    · cases a with
      | nil => exact absurd rfl hane
      | cons c rest => simp [List.any_cons, ha c (List.mem_cons_self c rest)]
  unfold pyFloat?
  rw [if_pos hcond, takeWhile_nodot_append a b hadot, dropWhile_nodot_append a b hadot]
  simp

theorem map_pyLower_digits (ds : List Char) (h : ∀ c ∈ ds, c.isDigit = true) :
    ds.map pyLower = ds := by
  induction ds with
  | nil => rfl
  | cons c rest ih =>
    rw [List.map_cons, pyLower_digit c (h c (List.mem_cons_self c rest)),
      ih (fun x hx => h x (List.mem_cons_of_mem c hx))]

theorem head_plain_not_space (ds t : List Char) (hne : ds ≠ [])
    (hplain : ∀ c ∈ ds, plainB c) :
    ∀ c, (ds ++ t).head? = some c → isPySpace c = false := by
  cases ds with
  | nil => exact absurd rfl hne
  | cons d rest =>
    intro c hc
    rw [List.cons_append, List.head?_cons, Option.some_inj] at hc
    rw [← hc]
    exact isPySpace_plain d (hplain d (List.mem_cons_self d rest))

theorem pyStrip_plain_tail (ds t : List Char) (hne : ds ≠ [])
    (hplain : ∀ c ∈ ds, plainB c) (htne : t ≠ [])
    (hlast : ∀ c, t.getLast? = some c → isPySpace c = false) :
    pyStrip (ds ++ t) = ds ++ t := by
  refine pyStrip_eq_self (ds ++ t) (head_plain_not_space ds t hne hplain) ?_
  intro c hc
  rw [List.getLast?_append_of_ne_nil ds htne] at hc
  exact hlast c hc

theorem noiseSub_plain_tail (ds t : List Char)
    (hplain : ∀ c ∈ ds, plainB c) (ht : noiseSub t = t) :
    noiseSub (ds ++ t) = ds ++ t := by
  have := noiseGo_append_plain ds t hplain
  rw [noiseSub] at ht ⊢
  rw [this, ht]

theorem pyStrip_plain_space (ds : List Char) (hne : ds ≠ [])
    (hplain : ∀ c ∈ ds, plainB c) :
    pyStrip (ds ++ [' ']) = ds := by
  unfold pyStrip
  rw [dropWhile_eq_self_of_head (ds ++ [' ']) (head_plain_not_space ds [' '] hne hplain)]
  rw [List.reverse_append]
  show ((' ' :: ds.reverse).dropWhile isPySpace).reverse = ds
  rw [List.dropWhile_cons_of_pos (by decide),
    dropWhile_eq_self_of_head ds.reverse (fun c hc =>
      isPySpace_plain c (hplain c (List.mem_reverse.1 (List.mem_of_mem_head? hc)))),
    List.reverse_reverse]

theorem substr_tail_eval (p : Char) (ps ds t : List Char) (b : Bool)
    (hd : ∀ c ∈ ds, plainB c) (hp1 : p.isDigit = false) (hp2 : p ≠ '.')
    (hp3 : p ≠ ',') (ht : substrB (p :: ps) t = b) :
    substrB (p :: ps) (ds ++ t) = b := by
  rw [substrB_append_of_head_ne p ps ds t
    (fun c hc => (plain_ne c p (hd c hc) hp1 hp2 hp3).symm), ht]

theorem erase_tail_eval (p : Char) (ps ds t u : List Char)
    (hd : ∀ c ∈ ds, plainB c) (hp1 : p.isDigit = false) (hp2 : p ≠ '.')
    (hp3 : p ≠ ',') (ht : eraseGo (p :: ps) t 0 = u) :
    eraseGo (p :: ps) (ds ++ t) 0 = ds ++ u := by
  rw [eraseGo_append_of_head_ne p ps ds t
    (fun c hc => (plain_ne c p (hd c hc) hp1 hp2 hp3).symm), ht]

theorem digits_filter_pass (ds : List Char) (h : ∀ c ∈ ds, c.isDigit = true) :
    ds.filter (fun c => c.isDigit || c = '.') = ds :=
  List.filter_eq_self.2 (fun c hc => by simp [h c hc])

/-- The common tail of every integer suffix round-trip: once the pipeline
has reduced the reading to its digit string and multiplier, `parse_number`
returns the digits' value times the multiplier. -/
theorem parse_digits_tail (ds t : List Char) (m : ℚ)
    (hne : ds ≠ []) (hdig : ∀ c ∈ ds, c.isDigit = true)
    (htne : t ≠ [])
    (hmapt : t.map pyLower = t)
    (hlast : ∀ c, t.getLast? = some c → isPySpace c = false)
    (hnoiset : noiseSub t = t)
    (hfind : findSuffix NUMBER_SUFFIXES (ds ++ t) = (m, ds)) :
    parse_number (String.mk (ds ++ t)) = (digitsVal ds : ℚ) * m := by
  have hplain : ∀ c ∈ ds, plainB c := fun c hc => Or.inl (hdig c hc)
  have hlistne : (ds ++ t).isEmpty = false := by
    cases ds with
    | nil => exact absurd rfl hne
    | cons d rest => simp
  have hmap : (ds ++ t).map pyLower = ds ++ t := by
    rw [List.map_append, map_pyLower_digits ds hdig, hmapt]
  have hstripped : pyStrip (ds ++ t) = ds ++ t :=
    pyStrip_plain_tail ds t hne hplain htne hlast
  have hnoise : noiseSub (ds ++ t) = ds ++ t := noiseSub_plain_tail ds t hplain hnoiset
  show parse_number ⟨ds ++ t⟩ = _
  unfold parse_number
  rw [show (String.mk (ds ++ t)).data = ds ++ t from rfl, hlistne]
  simp only [Bool.false_eq_true, if_false, parse_attempt]
  rw [hmap, hstripped, hnoise, hstripped, hfind]
  rw [sepNormalize_digits ds hdig, digits_filter_pass ds hdig, pyFloat_digits ds hne hdig]
  rfl

theorem findSuffix_plain_million (ds : List Char) (hne : ds ≠ [])
    (hplain : ∀ c ∈ ds, plainB c) :
    findSuffix NUMBER_SUFFIXES (ds ++ " million".data) = (1000000, ds) := by
  have et : substrB "million".data (ds ++ " million".data) = true :=
    substr_tail_eval 'm' "illion".data ds " million".data true hplain
      (by decide) (by decide) (by decide) (by decide)
  have ee : eraseA "million".data (ds ++ " million".data) = ds ++ [' '] :=
    erase_tail_eval 'm' "illion".data ds " million".data [' '] hplain
      (by decide) (by decide) (by decide) (by decide)
  simp only [NUMBER_SUFFIXES, findSuffix, et, Bool.false_eq_true, if_false, if_true]
  rw [ee, pyStrip_plain_space ds hne hplain]

theorem findSuffix_plain_billion (ds : List Char) (hne : ds ≠ [])
    (hplain : ∀ c ∈ ds, plainB c) :
    findSuffix NUMBER_SUFFIXES (ds ++ " billion".data) = (1000000000, ds) := by
  have e0 : substrB "million".data (ds ++ " billion".data) = false :=
    substr_tail_eval 'm' "illion".data ds " billion".data false hplain
      (by decide) (by decide) (by decide) (by decide)
  have et : substrB "billion".data (ds ++ " billion".data) = true :=
    substr_tail_eval 'b' "illion".data ds " billion".data true hplain
      (by decide) (by decide) (by decide) (by decide)
  have ee : eraseA "billion".data (ds ++ " billion".data) = ds ++ [' '] :=
    erase_tail_eval 'b' "illion".data ds " billion".data [' '] hplain
      (by decide) (by decide) (by decide) (by decide)
  simp only [NUMBER_SUFFIXES, findSuffix, e0, et, Bool.false_eq_true, if_false, if_true]
  rw [ee, pyStrip_plain_space ds hne hplain]

theorem findSuffix_plain_trillion (ds : List Char) (hne : ds ≠ [])
    (hplain : ∀ c ∈ ds, plainB c) :
    findSuffix NUMBER_SUFFIXES (ds ++ " trillion".data) = (1000000000000, ds) := by
  have e0 : substrB "million".data (ds ++ " trillion".data) = false :=
    substr_tail_eval 'm' "illion".data ds " trillion".data false hplain
      (by decide) (by decide) (by decide) (by decide)
  have e1 : substrB "billion".data (ds ++ " trillion".data) = false :=
    substr_tail_eval 'b' "illion".data ds " trillion".data false hplain
      (by decide) (by decide) (by decide) (by decide)
  have et : substrB "trillion".data (ds ++ " trillion".data) = true :=
    substr_tail_eval 't' "rillion".data ds " trillion".data true hplain
      (by decide) (by decide) (by decide) (by decide)
  have ee : eraseA "trillion".data (ds ++ " trillion".data) = ds ++ [' '] :=
    erase_tail_eval 't' "rillion".data ds " trillion".data [' '] hplain
      (by decide) (by decide) (by decide) (by decide)
  simp only [NUMBER_SUFFIXES, findSuffix, e0, e1, et, Bool.false_eq_true, if_false, if_true]
  rw [ee, pyStrip_plain_space ds hne hplain]

theorem findSuffix_plain_quadrillion (ds : List Char) (hne : ds ≠ [])
    (hplain : ∀ c ∈ ds, plainB c) :
    findSuffix NUMBER_SUFFIXES (ds ++ " quadrillion".data) = (1000000000000000, ds) := by
  have e0 : substrB "million".data (ds ++ " quadrillion".data) = false :=
    substr_tail_eval 'm' "illion".data ds " quadrillion".data false hplain
      (by decide) (by decide) (by decide) (by decide)
  have e1 : substrB "billion".data (ds ++ " quadrillion".data) = false :=
    substr_tail_eval 'b' "illion".data ds " quadrillion".data false hplain
      (by decide) (by decide) (by decide) (by decide)
  have e2 : substrB "trillion".data (ds ++ " quadrillion".data) = false :=
    substr_tail_eval 't' "rillion".data ds " quadrillion".data false hplain
      (by decide) (by decide) (by decide) (by decide)
  have et : substrB "quadrillion".data (ds ++ " quadrillion".data) = true :=
    substr_tail_eval 'q' "uadrillion".data ds " quadrillion".data true hplain
      (by decide) (by decide) (by decide) (by decide)
  have ee : eraseA "quadrillion".data (ds ++ " quadrillion".data) = ds ++ [' '] :=
    erase_tail_eval 'q' "uadrillion".data ds " quadrillion".data [' '] hplain
      (by decide) (by decide) (by decide) (by decide)
  simp only [NUMBER_SUFFIXES, findSuffix, e0, e1, e2, et, Bool.false_eq_true, if_false, if_true]
  rw [ee, pyStrip_plain_space ds hne hplain]

theorem findSuffix_plain_milione (ds : List Char) (hne : ds ≠ [])
    (hplain : ∀ c ∈ ds, plainB c) :
    findSuffix NUMBER_SUFFIXES (ds ++ " milione".data) = (1000000, ds) := by
  have e0 : substrB "million".data (ds ++ " milione".data) = false :=
    substr_tail_eval 'm' "illion".data ds " milione".data false hplain
      (by decide) (by decide) (by decide) (by decide)
  have e1 : substrB "billion".data (ds ++ " milione".data) = false :=
    substr_tail_eval 'b' "illion".data ds " milione".data false hplain
      (by decide) (by decide) (by decide) (by decide)
  have e2 : substrB "trillion".data (ds ++ " milione".data) = false :=
    substr_tail_eval 't' "rillion".data ds " milione".data false hplain
      (by decide) (by decide) (by decide) (by decide)
  have e3 : substrB "quadrillion".data (ds ++ " milione".data) = false :=
    substr_tail_eval 'q' "uadrillion".data ds " milione".data false hplain
      (by decide) (by decide) (by decide) (by decide)
  have et : substrB "milione".data (ds ++ " milione".data) = true :=
    substr_tail_eval 'm' "ilione".data ds " milione".data true hplain
      (by decide) (by decide) (by decide) (by decide)
  have ee : eraseA "milione".data (ds ++ " milione".data) = ds ++ [' '] :=
    erase_tail_eval 'm' "ilione".data ds " milione".data [' '] hplain
      (by decide) (by decide) (by decide) (by decide)
  simp only [NUMBER_SUFFIXES, findSuffix, e0, e1, e2, e3, et, Bool.false_eq_true, if_false, if_true]
  rw [ee, pyStrip_plain_space ds hne hplain]

theorem findSuffix_plain_miliardo (ds : List Char) (hne : ds ≠ [])
    (hplain : ∀ c ∈ ds, plainB c) :
    findSuffix NUMBER_SUFFIXES (ds ++ " miliardo".data) = (1000000000, ds) := by
  have e0 : substrB "million".data (ds ++ " miliardo".data) = false :=
    substr_tail_eval 'm' "illion".data ds " miliardo".data false hplain
      (by decide) (by decide) (by decide) (by decide)
  have e1 : substrB "billion".data (ds ++ " miliardo".data) = false :=
    substr_tail_eval 'b' "illion".data ds " miliardo".data false hplain
      (by decide) (by decide) (by decide) (by decide)
  have e2 : substrB "trillion".data (ds ++ " miliardo".data) = false :=
    substr_tail_eval 't' "rillion".data ds " miliardo".data false hplain
      (by decide) (by decide) (by decide) (by decide)
  have e3 : substrB "quadrillion".data (ds ++ " miliardo".data) = false :=
    substr_tail_eval 'q' "uadrillion".data ds " miliardo".data false hplain
      (by decide) (by decide) (by decide) (by decide)
  have e4 : substrB "milione".data (ds ++ " miliardo".data) = false :=
    substr_tail_eval 'm' "ilione".data ds " miliardo".data false hplain
      (by decide) (by decide) (by decide) (by decide)
  have et : substrB "miliardo".data (ds ++ " miliardo".data) = true :=
    substr_tail_eval 'm' "iliardo".data ds " miliardo".data true hplain
      (by decide) (by decide) (by decide) (by decide)
  have ee : eraseA "miliardo".data (ds ++ " miliardo".data) = ds ++ [' '] :=
    erase_tail_eval 'm' "iliardo".data ds " miliardo".data [' '] hplain
      (by decide) (by decide) (by decide) (by decide)
  simp only [NUMBER_SUFFIXES, findSuffix, e0, e1, e2, e3, e4, et, Bool.false_eq_true, if_false, if_true]
  rw [ee, pyStrip_plain_space ds hne hplain]

theorem map_pyLower_plain (l : List Char) (h : ∀ c ∈ l, plainB c) :
    l.map pyLower = l := by
  induction l with
  | nil => rfl
  | cons c rest ih =>
    rw [List.map_cons, pyLower_plain c (h c (List.mem_cons_self c rest)),
      ih (fun x hx => h x (List.mem_cons_of_mem c hx))]

theorem pyStrip_plain (l : List Char) (h : ∀ c ∈ l, plainB c) : pyStrip l = l := by
  refine pyStrip_eq_self l (fun c hc => isPySpace_plain c (h c (List.mem_of_mem_head? hc))) ?_
  intro c hc
  rw [List.getLast?_eq_head?_reverse] at hc
  exact isPySpace_plain c (h c (List.mem_reverse.1 (List.mem_of_mem_head? hc)))

theorem pipeline_id_plain (l : List Char) (h : ∀ c ∈ l, plainB c) :
    findSuffix NUMBER_SUFFIXES (pyStrip (noiseSub (pyStrip (l.map pyLower)))) = (1, l) := by
  have hd : ∀ p : Char, p.isDigit = false → p ≠ '.' → p ≠ ',' → ∀ c ∈ l, p ≠ c :=
    fun p h1 h2 h3 c hc => (plain_ne c p (h c hc) h1 h2 h3).symm
  rw [map_pyLower_plain l h, pyStrip_plain l h, noiseSub_plain l h, pyStrip_plain l h]
  apply findSuffix_of_all_absent
  intro pr hpr
  simp only [NUMBER_SUFFIXES, List.mem_cons] at hpr
  rcases hpr with rfl | rfl | rfl | rfl | rfl | rfl | hpr
  · exact substrB_nil_of_head_ne 'm' "illion".data l (hd 'm' (by decide) (by decide) (by decide))
  · exact substrB_nil_of_head_ne 'b' "illion".data l (hd 'b' (by decide) (by decide) (by decide))
  · exact substrB_nil_of_head_ne 't' "rillion".data l (hd 't' (by decide) (by decide) (by decide))
  · exact substrB_nil_of_head_ne 'q' "uadrillion".data l (hd 'q' (by decide) (by decide) (by decide))
  · exact substrB_nil_of_head_ne 'm' "ilione".data l (hd 'm' (by decide) (by decide) (by decide))
  · exact substrB_nil_of_head_ne 'm' "iliardo".data l (hd 'm' (by decide) (by decide) (by decide))
  · simp at hpr

theorem sepNormalize_dot (a b : List Char)
    (ha : ∀ c ∈ a, c.isDigit = true) (hb : ∀ c ∈ b, c.isDigit = true) :
    sepNormalize (a ++ '.' :: b) = if b.length = 3 then a ++ b else a ++ '.' :: b := by
  have hadot : ∀ c ∈ a, c ≠ '.' := fun c hc => digit_ne c '.' (ha c hc) (by decide)
  have hbdot : ∀ c ∈ b, c ≠ '.' := fun c hc => digit_ne c '.' (hb c hc) (by decide)
  have hdot : (a ++ '.' :: b).contains '.' = true := contains_eq_true_of_mem _ '.' (by simp)
  have hcom : (a ++ '.' :: b).contains ',' = false := by
    apply contains_eq_false_of_not_mem
    intro hm
    rcases List.mem_append.1 hm with hm | hm
    · exact absurd (ha ',' hm) (by decide)
    · rcases List.mem_cons.1 hm with h0 | hm
      · exact absurd h0 (by decide)
      · exact absurd (hb ',' hm) (by decide)
  unfold sepNormalize
  rw [hdot, hcom]
  simp only [Bool.and_false, Bool.false_eq_true, if_false, if_true]
  rw [splitDot_append a b hadot, splitDot_nodot b hbdot]
  by_cases hlen : b.length = 3 <;>
    simp [hlen, filter_not_dot_append a b hadot hbdot]

theorem sepNormalize_comma (a b : List Char)
    (ha : ∀ c ∈ a, c.isDigit = true) (hb : ∀ c ∈ b, c.isDigit = true) :
    sepNormalize (a ++ ',' :: b) = a ++ '.' :: b := by
  have hdot : (a ++ ',' :: b).contains '.' = false := by
    apply contains_eq_false_of_not_mem
    intro hm
    rcases List.mem_append.1 hm with hm | hm
    · exact absurd (ha '.' hm) (by decide)
    · rcases List.mem_cons.1 hm with h0 | hm
      · exact absurd h0 (by decide)
      · exact absurd (hb '.' hm) (by decide)
  have hcom : (a ++ ',' :: b).contains ',' = true := contains_eq_true_of_mem _ ',' (by simp)
  unfold sepNormalize
  rw [hdot, hcom]
  simp only [Bool.false_and, Bool.false_eq_true, if_false, if_true]
  rw [List.map_append, map_comma_sep a (fun c hc => digit_ne c ',' (ha c hc) (by decide)),
    List.map_cons, if_pos rfl,
    map_comma_sep b (fun c hc => digit_ne c ',' (hb c hc) (by decide))]

theorem sepNormalize_both (a b c : List Char)
    (ha : ∀ x ∈ a, x.isDigit = true) (hb : ∀ x ∈ b, x.isDigit = true)
    (hc : ∀ x ∈ c, x.isDigit = true) :
    sepNormalize (a ++ '.' :: (b ++ ',' :: c)) = a ++ (b ++ '.' :: c) := by
  have hdot : (a ++ '.' :: (b ++ ',' :: c)).contains '.' = true :=
    contains_eq_true_of_mem _ '.' (by simp)
  have hcom : (a ++ '.' :: (b ++ ',' :: c)).contains ',' = true :=
    contains_eq_true_of_mem _ ',' (by simp)
  unfold sepNormalize
  rw [hdot, hcom]
  simp only [Bool.and_self, if_true]
  have htail : ∀ x ∈ b ++ ',' :: c, x ≠ '.' := by
    intro x hx
    rcases List.mem_append.1 hx with hx | hx
    · exact digit_ne x '.' (hb x hx) (by decide)
    · rcases List.mem_cons.1 hx with h0 | hx
      · rw [h0]
        decide
      · exact digit_ne x '.' (hc x hx) (by decide)
  rw [filter_not_dot_append a (b ++ ',' :: c)
    (fun x hx => digit_ne x '.' (ha x hx) (by decide)) htail]
  rw [List.map_append, map_comma_sep a (fun x hx => digit_ne x ',' (ha x hx) (by decide)),
    List.map_append, map_comma_sep b (fun x hx => digit_ne x ',' (hb x hx) (by decide)),
    List.map_cons, if_pos rfl,
    map_comma_sep c (fun x hx => digit_ne x ',' (hc x hx) (by decide))]

theorem dotted_filter_pass (a b : List Char)
    (ha : ∀ c ∈ a, c.isDigit = true) (hb : ∀ c ∈ b, c.isDigit = true) :
    (a ++ '.' :: b).filter (fun c => c.isDigit || c = '.') = a ++ '.' :: b := by
  refine List.filter_eq_self.2 (fun c hcm => ?_)
  rcases List.mem_append.1 hcm with hm | hm
  · simp [ha c hm]
  · rcases List.mem_cons.1 hm with rfl | hm
    · simp
    · simp [hb c hm]

theorem parse_lone_dot (a b : List Char) (hane : a ≠ []) (hbne : b ≠ [])
    (ha : ∀ c ∈ a, c.isDigit = true) (hb : ∀ c ∈ b, c.isDigit = true) :
    parse_number (String.mk (a ++ '.' :: b))
      = if b.length = 3 then (digitsVal (a ++ b) : ℚ)
        else (digitsVal a : ℚ) + (digitsVal b : ℚ) / 10 ^ b.length := by
  have hplain : ∀ c ∈ a ++ '.' :: b, plainB c := by
    intro c hcm
    rcases List.mem_append.1 hcm with hm | hm
    · exact Or.inl (ha c hm)
    · rcases List.mem_cons.1 hm with rfl | hm
      · exact Or.inr (Or.inl rfl)
      · exact Or.inl (hb c hm)
  have hab : ∀ c ∈ a ++ b, c.isDigit = true :=
    fun c hcm => (List.mem_append.1 hcm).elim (ha c) (hb c)
  have habne : a ++ b ≠ [] := by
    cases a with
    | nil => exact absurd rfl hane
    | cons x xs => simp
  have hne : (a ++ '.' :: b).isEmpty = false := by
    cases a with
    | nil => exact absurd rfl hane
    | cons x xs => simp
  unfold parse_number
  rw [show (String.mk (a ++ '.' :: b)).data = a ++ '.' :: b from rfl, hne]
  simp only [Bool.false_eq_true, if_false, parse_attempt]
  rw [pipeline_id_plain _ hplain, sepNormalize_dot a b ha hb]
  by_cases hlen : b.length = 3
  · rw [if_pos hlen, if_pos hlen, digits_filter_pass (a ++ b) hab,
      pyFloat_digits (a ++ b) habne hab]
    simp
  · rw [if_neg hlen, if_neg hlen, dotted_filter_pass a b ha hb,
      pyFloat_decimal a b hane ha hb]
    simp

theorem parse_lone_comma (a b : List Char) (hane : a ≠ []) (hbne : b ≠ [])
    (ha : ∀ c ∈ a, c.isDigit = true) (hb : ∀ c ∈ b, c.isDigit = true) :
    parse_number (String.mk (a ++ ',' :: b))
      = (digitsVal a : ℚ) + (digitsVal b : ℚ) / 10 ^ b.length := by
  have hplain : ∀ c ∈ a ++ ',' :: b, plainB c := by
    intro c hcm
    rcases List.mem_append.1 hcm with hm | hm
    · exact Or.inl (ha c hm)
    · rcases List.mem_cons.1 hm with rfl | hm
      · exact Or.inr (Or.inr rfl)
      · exact Or.inl (hb c hm)
  have hne : (a ++ ',' :: b).isEmpty = false := by
    cases a with
    | nil => exact absurd rfl hane
    | cons x xs => simp
  unfold parse_number
  rw [show (String.mk (a ++ ',' :: b)).data = a ++ ',' :: b from rfl, hne]
  simp only [Bool.false_eq_true, if_false, parse_attempt]
  rw [pipeline_id_plain _ hplain, sepNormalize_comma a b ha hb,
    dotted_filter_pass a b ha hb, pyFloat_decimal a b hane ha hb]
  simp

theorem parse_both_sep (a b c : List Char) (hane : a ≠ [])
    (ha : ∀ x ∈ a, x.isDigit = true) (hb : ∀ x ∈ b, x.isDigit = true)
    (hc : ∀ x ∈ c, x.isDigit = true) :
    parse_number (String.mk (a ++ '.' :: (b ++ ',' :: c)))
      = (digitsVal (a ++ b) : ℚ) + (digitsVal c : ℚ) / 10 ^ c.length := by
  have hplain : ∀ x ∈ a ++ '.' :: (b ++ ',' :: c), plainB x := by
    intro x hxm
    rcases List.mem_append.1 hxm with hm | hm
    · exact Or.inl (ha x hm)
    · rcases List.mem_cons.1 hm with rfl | hm
      · exact Or.inr (Or.inl rfl)
      · rcases List.mem_append.1 hm with hm | hm
        · exact Or.inl (hb x hm)
        · rcases List.mem_cons.1 hm with rfl | hm
          · exact Or.inr (Or.inr rfl)
          · exact Or.inl (hc x hm)
  have hab : ∀ x ∈ a ++ b, x.isDigit = true :=
    fun x hxm => (List.mem_append.1 hxm).elim (ha x) (hb x)
  have habne : a ++ b ≠ [] := by
    cases a with
    | nil => exact absurd rfl hane
    | cons x xs => simp
  have hne : (a ++ '.' :: (b ++ ',' :: c)).isEmpty = false := by
    cases a with
    | nil => exact absurd rfl hane
    | cons x xs => simp
  unfold parse_number
  rw [show (String.mk (a ++ '.' :: (b ++ ',' :: c))).data
      = a ++ '.' :: (b ++ ',' :: c) from rfl, hne]
  simp only [Bool.false_eq_true, if_false, parse_attempt]
  rw [pipeline_id_plain _ hplain, sepNormalize_both a b c ha hb hc,
    ← List.append_assoc, dotted_filter_pass (a ++ b) c hab hc,
    pyFloat_decimal (a ++ b) c habne hab hc]
  simp

theorem last_not_space_concrete (t : List Char) (a : Char)
    (ht : t.getLast? = some a) (ha : isPySpace a = false) :
    ∀ c, t.getLast? = some c → isPySpace c = false := by
  intro c hcm
  rw [ht, Option.some_inj] at hcm
  rwa [← hcm]

/-- The common tail of every decimal suffix round-trip: when the numeric
part is a decimal digit string whose fractional part does not have
exactly 3 digits, the lone dot is kept as a decimal point and the value
is multiplied by the suffix multiplier. -/
theorem parse_decimal_tail (a b t : List Char) (m : ℚ)
    (hane : a ≠ []) (hbne : b ≠ [])
    (ha : ∀ c ∈ a, c.isDigit = true) (hb : ∀ c ∈ b, c.isDigit = true)
    (hlen : b.length ≠ 3)
    (htne : t ≠ [])
    (hmapt : t.map pyLower = t)
    (hlast : ∀ c, t.getLast? = some c → isPySpace c = false)
    (hnoiset : noiseSub t = t)
    (hfind : findSuffix NUMBER_SUFFIXES ((a ++ '.' :: b) ++ t) = (m, a ++ '.' :: b)) :
    parse_number (String.mk ((a ++ '.' :: b) ++ t))
      = ((digitsVal a : ℚ) + (digitsVal b : ℚ) / 10 ^ b.length) * m := by
  have hplain : ∀ c ∈ a ++ '.' :: b, plainB c := by
    intro c hcm
    rcases List.mem_append.1 hcm with hm | hm
    · exact Or.inl (ha c hm)
    · rcases List.mem_cons.1 hm with rfl | hm
      · exact Or.inr (Or.inl rfl)
      · exact Or.inl (hb c hm)
  have hdne : a ++ '.' :: b ≠ [] := by
    cases a with
    | nil => exact absurd rfl hane
    | cons x xs => simp
  have hlistne : ((a ++ '.' :: b) ++ t).isEmpty = false := by
    cases a with
    | nil => exact absurd rfl hane
    | cons x xs => simp
  have hmap : ((a ++ '.' :: b) ++ t).map pyLower = (a ++ '.' :: b) ++ t := by
    rw [List.map_append, map_pyLower_plain (a ++ '.' :: b) hplain, hmapt]
  have hstripped : pyStrip ((a ++ '.' :: b) ++ t) = (a ++ '.' :: b) ++ t :=
    pyStrip_plain_tail (a ++ '.' :: b) t hdne hplain htne hlast
  have hnoise : noiseSub ((a ++ '.' :: b) ++ t) = (a ++ '.' :: b) ++ t :=
    noiseSub_plain_tail (a ++ '.' :: b) t hplain hnoiset
  show parse_number ⟨(a ++ '.' :: b) ++ t⟩ = _
  unfold parse_number
  rw [show (String.mk ((a ++ '.' :: b) ++ t)).data = (a ++ '.' :: b) ++ t from rfl, hlistne]
  simp only [Bool.false_eq_true, if_false, parse_attempt]
  rw [hmap, hstripped, hnoise, hstripped, hfind]
  rw [sepNormalize_dot a b ha hb, if_neg hlen, dotted_filter_pass a b ha hb,
    pyFloat_decimal a b hane ha hb]
  rfl

/-- Claim C4: separator disambiguation — with both separators present the
dot groups thousands and the comma marks decimals, a lone comma marks
decimals, and a lone dot groups thousands exactly when 3 digits follow
it; concretely `parse_number "55.430" = 55430`, `parse_number "5.1" = 5.1`,
`parse_number "55.430,12" = 55430.12`, `parse_number "374,961" = 374.961`. -/
theorem parse_number_separator_rules :
    parse_number "55.430" = 55430 ∧
    parse_number "5.1" = 51 / 10 ∧
    parse_number "55.430,12" = 5543012 / 100 ∧
    parse_number "374,961" = 374961 / 1000 ∧
    (∀ a b : List Char, a ≠ [] → b ≠ [] → (∀ c ∈ a, c.isDigit = true) →
      (∀ c ∈ b, c.isDigit = true) →
      parse_number (String.mk (a ++ '.' :: b))
        = if b.length = 3 then (digitsVal (a ++ b) : ℚ)
          else (digitsVal a : ℚ) + (digitsVal b : ℚ) / 10 ^ b.length) ∧
    (∀ a b : List Char, a ≠ [] → b ≠ [] → (∀ c ∈ a, c.isDigit = true) →
      (∀ c ∈ b, c.isDigit = true) →
      parse_number (String.mk (a ++ ',' :: b))
        = (digitsVal a : ℚ) + (digitsVal b : ℚ) / 10 ^ b.length) ∧
    (∀ a b c : List Char, a ≠ [] → (∀ x ∈ a, x.isDigit = true) →
      (∀ x ∈ b, x.isDigit = true) → (∀ x ∈ c, x.isDigit = true) →
      parse_number (String.mk (a ++ '.' :: (b ++ ',' :: c)))
        = (digitsVal (a ++ b) : ℚ) + (digitsVal c : ℚ) / 10 ^ c.length) :=
  ⟨by decide, by decide, by decide, by decide,
   fun a b h1 h2 h3 h4 => parse_lone_dot a b h1 h2 h3 h4,
   fun a b h1 h2 h3 h4 => parse_lone_comma a b h1 h2 h3 h4,
   fun a b c h1 h2 h3 h4 => parse_both_sep a b c h1 h2 h3 h4⟩

/-- Claim C4 witness: the separator rules applied at concrete digit
strings. -/
theorem parse_number_separator_rules_witness :
    parse_number (String.mk (['5', '5'] ++ '.' :: ['4', '3', '0']))
      = (digitsVal (['5', '5'] ++ ['4', '3', '0']) : ℚ) ∧
    parse_number (String.mk (['5'] ++ '.' :: ['1']))
      = (digitsVal ['5'] : ℚ) + (digitsVal ['1'] : ℚ) / 10 ^ (1 : ℕ) ∧
    parse_number (String.mk (['3', '7', '4'] ++ ',' :: ['9', '6', '1']))
      = (digitsVal ['3', '7', '4'] : ℚ) + (digitsVal ['9', '6', '1'] : ℚ) / 10 ^ (3 : ℕ) ∧
    parse_number (String.mk (['5', '5'] ++ '.' :: (['4', '3', '0'] ++ ',' :: ['1', '2'])))
      = (digitsVal (['5', '5'] ++ ['4', '3', '0']) : ℚ)
        + (digitsVal ['1', '2'] : ℚ) / 10 ^ (2 : ℕ) := by
  obtain ⟨-, -, -, -, hdot, hcomma, hboth⟩ := parse_number_separator_rules
  refine ⟨?_, ?_, ?_, ?_⟩
  · have h := hdot ['5', '5'] ['4', '3', '0'] (by decide) (by decide) (by decide) (by decide)
    rw [if_pos (by decide)] at h
    exact h
  · have h := hdot ['5'] ['1'] (by decide) (by decide) (by decide) (by decide)
    rw [if_neg (by decide)] at h
    exact h
  · exact hcomma ['3', '7', '4'] ['9', '6', '1'] (by decide) (by decide) (by decide) (by decide)
  · exact hboth ['5', '5'] ['4', '3', '0'] ['1', '2'] (by decide) (by decide) (by decide)
      (by decide)

/-- Claim C5: `parse_number` is total — it equals the attempted conversion
with `0` substituted for failure, so every input (empty, garbage, or
purely alphabetic) yields a rational, `0` on unparseable input. -/
theorem parse_number_total :
    (∀ s : String, parse_number s = (parse_attempt s).getD 0) ∧
    (∀ s : String, parse_attempt s = none → parse_number s = 0) ∧
    parse_number "" = 0 ∧ parse_number "abc" = 0 ∧ parse_number "?!*" = 0 := by
  have hempty : ∀ s : String, s.data.isEmpty = true → (parse_attempt s).getD 0 = 0 := by
    intro s hs
    have hd : s.data = [] := by simpa [List.isEmpty_iff] using hs
    unfold parse_attempt
    rw [hd]
    decide
  refine ⟨?_, ?_, by decide, by decide, by decide⟩
  · intro s
    unfold parse_number
    by_cases hs : s.data.isEmpty = true
    · rw [if_pos hs]
      exact (hempty s hs).symm
    · rw [if_neg hs]
  · intro s h
    unfold parse_number
    by_cases hs : s.data.isEmpty = true
    · rw [if_pos hs]
    · rw [if_neg hs, h]
      rfl

/-- Claim C5 witness: a purely alphabetic reading fails the conversion and
yields `0`. -/
theorem parse_number_total_witness : parse_number "xyz" = 0 :=
  parse_number_total.2.1 "xyz" (by decide)

/-- Claim C6 counterexample: the claim fails in two independent ways.
First, the table is said to reach `quintillion → 1e18`, but
`NUMBER_SUFFIXES` in screen_reader.py stops at `quadrillion`, so
`parse_number "2 quintillion"` is `2`, not `2e18`.  Second, even for a
suffix that is in the table, a decimal number with exactly three
fractional digits is misread as thousands-grouped by the lone-dot rule:
`parse_number "1.125 million"` is `1.125e9`, not `1.125e6`. -/
theorem parse_number_suffix_roundtrip_cex :
    (parse_number "2 quintillion" = 2 ∧
      (2 : ℚ) ≠ 2 * 1000000000000000000) ∧
    (parse_number "1.125 million" = 1125000000 ∧
      (1125000000 : ℚ) ≠ (1125 / 1000) * 1000000) :=
  ⟨⟨by decide, by decide⟩, ⟨by decide, by decide⟩⟩

/-- Claim C6 (amended): the round-trip
`parse_number (n ++ " " ++ suffix) = n * multiplier` holds (exactly, in
rational arithmetic) for every suffix actually in screen_reader.py's
table — million/milione (1e6), billion/miliardo (1e9), trillion (1e12),
quadrillion (1e15) — and for every number `n` whose decimal rendering is
a digit string with either no fractional part or a fractional part whose
length is not exactly 3.  The table has no `quintillion` entry, and a
fractional part of exactly 3 digits is consumed as a thousands group. -/
theorem parse_number_suffix_roundtrip :
    (∀ ds : List Char, ds ≠ [] → (∀ c ∈ ds, c.isDigit = true) →
      parse_number (String.mk (ds ++ " million".data)) = (digitsVal ds : ℚ) * 1000000 ∧
      parse_number (String.mk (ds ++ " billion".data)) = (digitsVal ds : ℚ) * 1000000000 ∧
      parse_number (String.mk (ds ++ " trillion".data)) = (digitsVal ds : ℚ) * 1000000000000 ∧
      parse_number (String.mk (ds ++ " quadrillion".data)) = (digitsVal ds : ℚ) * 1000000000000000 ∧
      parse_number (String.mk (ds ++ " milione".data)) = (digitsVal ds : ℚ) * 1000000 ∧
      parse_number (String.mk (ds ++ " miliardo".data)) = (digitsVal ds : ℚ) * 1000000000) ∧
    (∀ a b : List Char, a ≠ [] → b ≠ [] → (∀ c ∈ a, c.isDigit = true) →
      (∀ c ∈ b, c.isDigit = true) → b.length ≠ 3 →
      parse_number (String.mk ((a ++ '.' :: b) ++ " million".data))
        = ((digitsVal a : ℚ) + (digitsVal b : ℚ) / 10 ^ b.length) * 1000000 ∧
      parse_number (String.mk ((a ++ '.' :: b) ++ " billion".data))
        = ((digitsVal a : ℚ) + (digitsVal b : ℚ) / 10 ^ b.length) * 1000000000 ∧
      parse_number (String.mk ((a ++ '.' :: b) ++ " trillion".data))
        = ((digitsVal a : ℚ) + (digitsVal b : ℚ) / 10 ^ b.length) * 1000000000000 ∧
      parse_number (String.mk ((a ++ '.' :: b) ++ " quadrillion".data))
        = ((digitsVal a : ℚ) + (digitsVal b : ℚ) / 10 ^ b.length) * 1000000000000000 ∧
      parse_number (String.mk ((a ++ '.' :: b) ++ " milione".data))
        = ((digitsVal a : ℚ) + (digitsVal b : ℚ) / 10 ^ b.length) * 1000000 ∧
      parse_number (String.mk ((a ++ '.' :: b) ++ " miliardo".data))
        = ((digitsVal a : ℚ) + (digitsVal b : ℚ) / 10 ^ b.length) * 1000000000) := by
  constructor
  · intro ds hne hdig
    refine ⟨?_, ?_, ?_, ?_, ?_, ?_⟩
    · exact parse_digits_tail ds " million".data 1000000 hne hdig (by decide) (by decide)
        (last_not_space_concrete " million".data 'n' (by decide) (by decide)) (by decide)
        (findSuffix_plain_million ds hne (fun c hc => Or.inl (hdig c hc)))
    · exact parse_digits_tail ds " billion".data 1000000000 hne hdig (by decide) (by decide)
        (last_not_space_concrete " billion".data 'n' (by decide) (by decide)) (by decide)
        (findSuffix_plain_billion ds hne (fun c hc => Or.inl (hdig c hc)))
    · exact parse_digits_tail ds " trillion".data 1000000000000 hne hdig (by decide) (by decide)
        (last_not_space_concrete " trillion".data 'n' (by decide) (by decide)) (by decide)
        (findSuffix_plain_trillion ds hne (fun c hc => Or.inl (hdig c hc)))
    · exact parse_digits_tail ds " quadrillion".data 1000000000000000 hne hdig (by decide) (by decide)
        (last_not_space_concrete " quadrillion".data 'n' (by decide) (by decide)) (by decide)
        (findSuffix_plain_quadrillion ds hne (fun c hc => Or.inl (hdig c hc)))
    · exact parse_digits_tail ds " milione".data 1000000 hne hdig (by decide) (by decide)
        (last_not_space_concrete " milione".data 'e' (by decide) (by decide)) (by decide)
        (findSuffix_plain_milione ds hne (fun c hc => Or.inl (hdig c hc)))
    · exact parse_digits_tail ds " miliardo".data 1000000000 hne hdig (by decide) (by decide)
        (last_not_space_concrete " miliardo".data 'o' (by decide) (by decide)) (by decide)
        (findSuffix_plain_miliardo ds hne (fun c hc => Or.inl (hdig c hc)))
  · intro a b h1 h2 h3 h4 h5
    have hplain : ∀ c ∈ a ++ '.' :: b, plainB c := by
      intro c hcm
      rcases List.mem_append.1 hcm with hm | hm
      · exact Or.inl (h3 c hm)
      · rcases List.mem_cons.1 hm with rfl | hm
        · exact Or.inr (Or.inl rfl)
        · exact Or.inl (h4 c hm)
    have hdne : a ++ '.' :: b ≠ [] := by
      cases a with
      | nil => exact absurd rfl h1
      | cons x xs => simp
    refine ⟨?_, ?_, ?_, ?_, ?_, ?_⟩
    · exact parse_decimal_tail a b " million".data 1000000 h1 h2 h3 h4 h5 (by decide) (by decide)
        (last_not_space_concrete " million".data 'n' (by decide) (by decide)) (by decide)
        (findSuffix_plain_million (a ++ '.' :: b) hdne hplain)
    · exact parse_decimal_tail a b " billion".data 1000000000 h1 h2 h3 h4 h5 (by decide) (by decide)
        (last_not_space_concrete " billion".data 'n' (by decide) (by decide)) (by decide)
        (findSuffix_plain_billion (a ++ '.' :: b) hdne hplain)
    · exact parse_decimal_tail a b " trillion".data 1000000000000 h1 h2 h3 h4 h5 (by decide) (by decide)
        (last_not_space_concrete " trillion".data 'n' (by decide) (by decide)) (by decide)
        (findSuffix_plain_trillion (a ++ '.' :: b) hdne hplain)
    · exact parse_decimal_tail a b " quadrillion".data 1000000000000000 h1 h2 h3 h4 h5 (by decide) (by decide)
        (last_not_space_concrete " quadrillion".data 'n' (by decide) (by decide)) (by decide)
        (findSuffix_plain_quadrillion (a ++ '.' :: b) hdne hplain)
    · exact parse_decimal_tail a b " milione".data 1000000 h1 h2 h3 h4 h5 (by decide) (by decide)
        (last_not_space_concrete " milione".data 'e' (by decide) (by decide)) (by decide)
        (findSuffix_plain_milione (a ++ '.' :: b) hdne hplain)
    · exact parse_decimal_tail a b " miliardo".data 1000000000 h1 h2 h3 h4 h5 (by decide) (by decide)
        (last_not_space_concrete " miliardo".data 'o' (by decide) (by decide)) (by decide)
        (findSuffix_plain_miliardo (a ++ '.' :: b) hdne hplain)

/-- Claim C6 witness: the round-trip at the integer `37` and at the
decimal `1.5` (one fractional digit). -/
theorem parse_number_suffix_roundtrip_witness :
    (    parse_number (String.mk (['3', '7'] ++ " million".data))
      = (digitsVal ['3', '7'] : ℚ) * 1000000 ∧
    parse_number (String.mk (['3', '7'] ++ " billion".data))
      = (digitsVal ['3', '7'] : ℚ) * 1000000000 ∧
    parse_number (String.mk (['3', '7'] ++ " trillion".data))
      = (digitsVal ['3', '7'] : ℚ) * 1000000000000 ∧
    parse_number (String.mk (['3', '7'] ++ " quadrillion".data))
      = (digitsVal ['3', '7'] : ℚ) * 1000000000000000 ∧
    parse_number (String.mk (['3', '7'] ++ " milione".data))
      = (digitsVal ['3', '7'] : ℚ) * 1000000 ∧
    parse_number (String.mk (['3', '7'] ++ " miliardo".data))
      = (digitsVal ['3', '7'] : ℚ) * 1000000000) ∧
    (    parse_number (String.mk ((['1'] ++ '.' :: ['5']) ++ " million".data))
      = ((digitsVal ['1'] : ℚ) + (digitsVal ['5'] : ℚ) / 10 ^ (['5'] : List Char).length) * 1000000 ∧
    parse_number (String.mk ((['1'] ++ '.' :: ['5']) ++ " billion".data))
      = ((digitsVal ['1'] : ℚ) + (digitsVal ['5'] : ℚ) / 10 ^ (['5'] : List Char).length) * 1000000000 ∧
    parse_number (String.mk ((['1'] ++ '.' :: ['5']) ++ " trillion".data))
      = ((digitsVal ['1'] : ℚ) + (digitsVal ['5'] : ℚ) / 10 ^ (['5'] : List Char).length) * 1000000000000 ∧
    parse_number (String.mk ((['1'] ++ '.' :: ['5']) ++ " quadrillion".data))
      = ((digitsVal ['1'] : ℚ) + (digitsVal ['5'] : ℚ) / 10 ^ (['5'] : List Char).length) * 1000000000000000 ∧
    parse_number (String.mk ((['1'] ++ '.' :: ['5']) ++ " milione".data))
      = ((digitsVal ['1'] : ℚ) + (digitsVal ['5'] : ℚ) / 10 ^ (['5'] : List Char).length) * 1000000 ∧
    parse_number (String.mk ((['1'] ++ '.' :: ['5']) ++ " miliardo".data))
      = ((digitsVal ['1'] : ℚ) + (digitsVal ['5'] : ℚ) / 10 ^ (['5'] : List Char).length) * 1000000000) :=
  ⟨parse_number_suffix_roundtrip.1 ['3', '7'] (by decide) (by decide),
   parse_number_suffix_roundtrip.2 ['1'] ['5'] (by decide) (by decide) (by decide)
     (by decide) (by decide)⟩

end CookieBot
